import Mathlib

/-
Verification of the C# backend of the gomobile bind generator
(bind package, CSharpGen) against its natural-language specification.

The definitions below are a shallow embedding of the generator and of the
C#/C code it emits.  Pure generator helpers (csIdentifier, csNativeType,
isConsSigSupported, collectReturnStructs, ...) become Lean functions over a
simplified universe of Go types.  The emitted runtime (the RefTracker, the
Seq marshaling helpers, the pending-exception queue, the callback
trampolines, the wrapper method bodies) is embedded as explicit state
passing: records model the C# objects, association lists model the two
dictionaries of the tracker, and machine integers are modelled as Int with
the explicit bound 2147483647 where the emitted code checks int.MaxValue.
-/

namespace GomobileCS

/-! ## Go type universe

A simplified universe of the Go types the generator handles, mirroring the
cases of the switches in csType / csNativeType / isRefnumType
(bind/csharp source).  Named types carry whether their underlying type is a
struct or an interface; the package-less named type error is its own
constructor (the source special-cases it through isErrorType). -/

inductive BasicKind where
  | bool | int | int8 | int16 | int32 | int64
  | uint8 | uint16 | uint32 | uint64
  | float32 | float64 | string
deriving DecidableEq, Repr

inductive NamedKind where
  | structKind | ifaceKind
deriving DecidableEq, Repr

inductive Ty where
  | basic (k : BasicKind)
  | slice (elem : BasicKind)
  | ptr (elem : Ty)
  | named (kind : NamedKind) (pkgId : Nat) (name : String)
  | errorTy
  | otherTy
deriving DecidableEq, Repr

/-- Embedding of isErrorType: the special package-less named type error. -/
def isErrorType : Ty → Bool
  | .errorTy => true
  | _ => false

/-- Embedding of isRefnumType (source): a pointer whose element is a named
type, or a named type whose underlying type is an interface or a struct,
is represented by a refnum.  The universe error type is a named interface
type, hence refnum-represented. -/
def isRefnumType : Ty → Bool
  | .ptr t =>
    match t with
    | .named _ _ _ => true
    | .errorTy => true
    | _ => false
  | .named _ _ _ => true
  | .errorTy => true
  | _ => false

/-- Embedding of csNativeType (source): the ABI-level wire type of a Go
type, as the C# type name the generator prints.  Unsupported cases record a
diagnostic in the source and then fall through to the final return of
the string int; the embedding keeps only the returned string. -/
def csNativeType : Ty → String
  | .basic .bool => "byte"
  | .basic .int => "long"
  | .basic .int8 => "sbyte"
  | .basic .int16 => "short"
  | .basic .int32 => "int"
  | .basic .int64 => "long"
  | .basic .uint8 => "byte"
  | .basic .float32 => "float"
  | .basic .float64 => "double"
  | .basic .string => "NString"
  | .basic _ => "int"
  | .slice .uint8 => "NByteslice"
  | .slice _ => "int"
  | .ptr _ => "int"
  | .named _ _ _ => "int"
  | .errorTy => "int"
  | .otherTy => "int"

/-- Embedding of shouldFreeAfterCall (source): only a byte slice argument
passed in transient mode is freed by the managed side after the call. -/
def shouldFreeAfterCall (t : Ty) (retained : Bool) : Bool :=
  if retained then false
  else
    match t with
    | .slice .uint8 => true
    | _ => false

/-! ## Identifier sanitizer (csIdentifier)

The reserved-keyword replacer csharpNameReplacer is built by
newNameSanitizer, whose definition lives in the bind package outside the
provided sources; it is modelled from the spec below.  The regular
expression applied afterwards replaces every character outside
A-Za-z0-9_ with an underscore. -/

/-- The reserved C# keywords, from the csharpNameReplacer list (source). -/
def csKeywords : List String :=
  ["abstract", "as", "base", "bool", "break", "byte", "case", "catch", "char",
   "checked", "class", "const", "continue", "decimal", "default", "delegate", "do",
   "double", "else", "enum", "event", "explicit", "extern", "false", "finally",
   "fixed", "float", "for", "foreach", "goto", "if", "implicit", "in", "int",
   "interface", "internal", "is", "lock", "long", "namespace", "new", "null",
   "object", "operator", "out", "override", "params", "private", "protected",
   "public", "readonly", "ref", "return", "sbyte", "sealed", "short", "sizeof",
   "stackalloc", "static", "string", "struct", "switch", "this", "throw", "true",
   "try", "typeof", "uint", "ulong", "unchecked", "unsafe", "ushort", "using",
   "virtual", "void", "volatile", "while", "record", "init", "when", "yield", "add",
   "remove", "value", "var", "dynamic"]

/-- Character class of the regular expression in csharpIdentifierRe:
ASCII letters, ASCII digits and underscore. -/
def isCsIdentChar (c : Char) : Bool :=
  (('A' ≤ c && c ≤ 'Z') || ('a' ≤ c && c ≤ 'z') || ('0' ≤ c && c ≤ '9') || c = '_')

/-- Modelled from the spec: newNameSanitizer is defined in the bind package
outside the provided sources; per spec section 4.B step 1, a name matching a
reserved managed keyword is suffixed deterministically (with an
underscore), any other name is returned unchanged. -/
def csharpNameReplacer (s : String) : String :=
  if s ∈ csKeywords then s ++ "_" else s

/-- Replacement pass of csharpIdentifierRe.ReplaceAllString(name, "_"):
every rune outside A-Za-z0-9_ becomes an underscore. -/
def replaceNonIdent (s : String) : String :=
  ⟨s.data.map (fun c => if isCsIdentChar c then c else '_')⟩

/-- First-character test of csIdentifier.  The source calls
unicode.IsLetter on the first rune; csIdentifier only applies it after the
replacement pass, whose output consists of ASCII identifier characters, on
which unicode.IsLetter coincides with the ASCII letter test. -/
def goIsLetter (c : Char) : Bool :=
  ('A' ≤ c && c ≤ 'Z') || ('a' ≤ c && c ≤ 'z')

/-- Embedding of csIdentifier (source): empty input is returned as is;
otherwise the keyword replacer runs, then the regular-expression
replacement; an empty intermediate result yields an underscore; a first
character that is neither a letter nor an underscore gets an underscore
prefixed. -/
def csIdentifier (name : String) : String :=
  if name = "" then name
  else
    let n1 := csharpNameReplacer name
    let n2 := replaceNonIdent n1
    if n2 = "" then "_"
    else
      let r := n2.data.headD '_'
      if r ≠ '_' && !(goIsLetter r) then "_" ++ n2 else n2

/-- Validity of a managed identifier, as the claim states it: non-empty,
every character alphanumeric or underscore, first character a letter or an
underscore. -/
def validCsIdent (s : String) : Bool :=
  !s.data.isEmpty && s.data.all isCsIdentChar &&
    (s.data.headD '_' = '_' || goIsLetter (s.data.headD '_'))

/-! ### Facts about the sanitizer -/

def replChar (c : Char) : Char := if isCsIdentChar c then c else '_'

lemma replaceNonIdent_data (s : String) :
    (replaceNonIdent s).data = s.data.map replChar := rfl

lemma all_ident_map_repl (l : List Char) :
    (l.map replChar).all isCsIdentChar = true := by
  induction l with
  | nil => rfl
  | cons c rest ih =>
    simp only [List.map_cons, List.all_cons, ih, Bool.and_true]
    by_cases h : isCsIdentChar c
    · simp [replChar, h]
    · have hu : replChar c = '_' := by simp [replChar, h]
      rw [hu]; decide

lemma map_repl_id {l : List Char} (h : l.all isCsIdentChar = true) :
    l.map replChar = l := by
  induction l with
  | nil => rfl
  | cons c rest ih =>
    simp only [List.all_cons, Bool.and_eq_true] at h
    simp [replChar, h.1, ih h.2]

def isLowerAscii (c : Char) : Bool := 'a' ≤ c && c ≤ 'z'

lemma keyword_chars_lower : ∀ k ∈ csKeywords, k.data.all isLowerAscii = true := by
  decide

lemma keyword_ne_nil : ∀ k ∈ csKeywords, k.data ≠ [] := by
  decide

lemma ident_of_lower {c : Char} (h : isLowerAscii c = true) : isCsIdentChar c = true := by
  simp only [isLowerAscii, Bool.and_eq_true] at h
  simp [isCsIdentChar, h.1, h.2]

lemma letter_of_lower {c : Char} (h : isLowerAscii c = true) : goIsLetter c = true := by
  simp only [isLowerAscii, Bool.and_eq_true] at h
  simp [goIsLetter, h.1, h.2]

lemma not_lower_underscore : isLowerAscii '_' = false := by decide

lemma not_keyword_of_underscore_mem {s : String} (h : '_' ∈ s.data) :
    s ∉ csKeywords := by
  intro hk
  have hall := keyword_chars_lower s hk
  have := List.all_eq_true.mp hall _ h
  rw [not_lower_underscore] at this
  exact Bool.false_ne_true this

lemma string_ne_empty_iff (s : String) : s ≠ "" ↔ s.data ≠ [] := by
  constructor
  · intro h hc
    exact h (String.ext hc)
  · intro h hc
    apply h
    rw [hc]

lemma data_append (a b : String) : (a ++ b).data = a.data ++ b.data := rfl

lemma repl_eq_self_of_lower {c : Char} (h : isLowerAscii (replChar c) = true) :
    replChar c = c := by
  by_cases hc : isCsIdentChar c
  · simp [replChar, hc]
  · exfalso
    have hu : replChar c = '_' := by simp [replChar, hc]
    rw [hu] at h
    exact absurd h (by decide)

lemma map_repl_eq_self_of_all_lower {l : List Char}
    (h : (l.map replChar).all isLowerAscii = true) : l.map replChar = l := by
  induction l with
  | nil => rfl
  | cons c rest ih =>
    simp only [List.map_cons, List.all_cons, Bool.and_eq_true] at h
    simp [repl_eq_self_of_lower h.1, ih h.2]

lemma replacer_data_ne_nil {n : String} (hn : n ≠ "") :
    (csharpNameReplacer n).data ≠ [] := by
  unfold csharpNameReplacer
  by_cases hk : n ∈ csKeywords
  · rw [if_pos hk, data_append]
    simp [(string_ne_empty_iff n).mp hn]
  · rw [if_neg hk]
    exact (string_ne_empty_iff n).mp hn

lemma replaced_data_ne_nil {n : String} (hn : n ≠ "") :
    (replaceNonIdent (csharpNameReplacer n)).data ≠ [] := by
  rw [replaceNonIdent_data]
  simp [replacer_data_ne_nil hn]

/-- Central description of csIdentifier on a nonempty input: writing m for
the string after keyword replacement and character replacement, the result
is m itself, or m with an underscore prefixed when the first character of m
is not a letter and not an underscore. -/
lemma csIdentifier_of_ne_empty {n : String} (hn : n ≠ "") :
    csIdentifier n =
      (let m := replaceNonIdent (csharpNameReplacer n)
       let r := m.data.headD '_'
       if r ≠ '_' && !(goIsLetter r) then "_" ++ m else m) := by
  have hne : replaceNonIdent (csharpNameReplacer n) ≠ "" :=
    (string_ne_empty_iff _).mpr (replaced_data_ne_nil hn)
  unfold csIdentifier
  rw [if_neg hn, if_neg hne]

lemma csIdentifier_valid {n : String} (hn : n ≠ "") :
    validCsIdent (csIdentifier n) = true := by
  rw [csIdentifier_of_ne_empty hn]
  have hall : (replaceNonIdent (csharpNameReplacer n)).data.all isCsIdentChar = true := by
    rw [replaceNonIdent_data]; exact all_ident_map_repl _
  obtain ⟨r, rest, hd⟩ := List.exists_cons_of_ne_nil (replaced_data_ne_nil hn)
  simp only [hd, List.headD_cons]
  by_cases hc : (r ≠ '_' && !(goIsLetter r)) = true
  · rw [if_pos hc]
    unfold validCsIdent
    rw [data_append]
    have hu : ("_" : String).data = ['_'] := rfl
    rw [hu, hd]
    rw [hd] at hall
    simp [hall, isCsIdentChar]
  · rw [if_neg hc]
    have hror : r = '_' ∨ goIsLetter r = true := by
      by_cases h1 : r = '_'
      · exact Or.inl h1
      · right
        by_cases h2 : goIsLetter r
        · exact h2
        · exact absurd (by simp [h1, h2]) hc
    unfold validCsIdent
    rw [hd] at hall ⊢
    simp only [List.isEmpty_cons, Bool.not_false, List.headD_cons, Bool.true_and]
    rw [hall]
    simp only [Bool.true_and]
    rcases hror with h | h
    · simp [h]
    · simp [h]

lemma csIdentifier_not_keyword {n : String} (hn : n ≠ "") :
    csIdentifier n ∉ csKeywords := by
  rw [csIdentifier_of_ne_empty hn]
  by_cases hk : n ∈ csKeywords
  · -- keyword input: the result is the keyword with an underscore appended
    have hlow := keyword_chars_lower n hk
    have hid : n.data.all isCsIdentChar = true := by
      rw [List.all_eq_true] at hlow ⊢
      exact fun c hc => ident_of_lower (hlow c hc)
    have hrepl : csharpNameReplacer n = n ++ "_" := by
      unfold csharpNameReplacer; rw [if_pos hk]
    have hmdata : (replaceNonIdent (csharpNameReplacer n)).data = n.data ++ ['_'] := by
      rw [replaceNonIdent_data, hrepl, data_append]
      apply map_repl_id
      rw [List.all_append]
      simp [hid, isCsIdentChar]
    obtain ⟨c, cs, hd⟩ := List.exists_cons_of_ne_nil (keyword_ne_nil n hk)
    have hc : isLowerAscii c = true :=
      List.all_eq_true.mp hlow c (by rw [hd]; exact List.mem_cons_self _ _)
    have hcond : (c ≠ '_' && !(goIsLetter c)) = false := by
      simp [letter_of_lower hc]
    simp only [hmdata, hd, List.cons_append, List.headD_cons, hcond,
      Bool.false_eq_true, if_false]
    apply not_keyword_of_underscore_mem
    rw [hmdata]
    simp
  · -- non-keyword input: the result either contains an underscore or
    -- equals the input itself
    have hrepl : csharpNameReplacer n = n := by
      unfold csharpNameReplacer; rw [if_neg hk]
    rw [hrepl]
    have hd2 : (replaceNonIdent n).data ≠ [] := by
      rw [replaceNonIdent_data]
      simp [(string_ne_empty_iff n).mp hn]
    obtain ⟨r, rest, hd⟩ := List.exists_cons_of_ne_nil hd2
    simp only [hd, List.headD_cons]
    by_cases hc : (r ≠ '_' && !(goIsLetter r)) = true
    · rw [if_pos hc]
      apply not_keyword_of_underscore_mem
      rw [data_append]
      simp
    · rw [if_neg hc]
      intro hkw
      have hlow := keyword_chars_lower _ hkw
      have heq : replaceNonIdent n = n := by
        apply String.ext
        rw [replaceNonIdent_data] at hlow ⊢
        exact map_repl_eq_self_of_all_lower hlow
      rw [heq] at hkw
      exact hk hkw

lemma csIdentifier_idem (n : String) :
    csIdentifier (csIdentifier n) = csIdentifier n := by
  by_cases hn : n = ""
  · rw [hn]; rfl
  · have hv := csIdentifier_valid hn
    have hk := csIdentifier_not_keyword hn
    unfold validCsIdent at hv
    simp only [Bool.and_eq_true] at hv
    obtain ⟨⟨hne0, hall⟩, hhead⟩ := hv
    have hne : (csIdentifier n).data ≠ [] := by
      intro h0
      rw [h0] at hne0
      simp at hne0
    have hne' : csIdentifier n ≠ "" := (string_ne_empty_iff _).mpr hne
    rw [csIdentifier_of_ne_empty hne']
    have hrepl : csharpNameReplacer (csIdentifier n) = csIdentifier n := by
      unfold csharpNameReplacer; rw [if_neg hk]
    have hmap : replaceNonIdent (csIdentifier n) = csIdentifier n := by
      apply String.ext
      rw [replaceNonIdent_data]
      exact map_repl_id hall
    rw [hrepl, hmap]
    obtain ⟨r, rest, hd⟩ := List.exists_cons_of_ne_nil hne
    rw [hd] at hhead
    simp only [List.headD_cons] at hhead
    have hror : r = '_' ∨ goIsLetter r = true := by simpa using hhead
    have hcond : (r ≠ '_' && !(goIsLetter r)) = false := by
      rcases hror with h | h
      · simp [h]
      · simp [h]
    simp only [hd, List.headD_cons, hcond, Bool.false_eq_true, if_false]

/-- C3: the claim asserts that for every Go identifier, including the empty
string, csIdentifier yields a valid, keyword-free managed identifier.  The
code returns the empty string unchanged, which is not a valid identifier;
this theorem refutes the claim at the empty string. -/
theorem claim_C3_counterexample :
    csIdentifier "" = "" ∧ validCsIdent (csIdentifier "") = false :=
  ⟨rfl, rfl⟩

/-- C3 (amended): for every nonempty Go identifier n, csIdentifier n is a
valid managed identifier and not a reserved keyword; the empty string is
returned unchanged (not sanitized to an underscore); and sanitization is
idempotent. -/
theorem claim_C3_identifier_sanitization (n : String) (hn : n ≠ "") :
    validCsIdent (csIdentifier n) = true ∧
    csIdentifier n ∉ csKeywords ∧
    csIdentifier "" = "" ∧
    csIdentifier (csIdentifier n) = csIdentifier n :=
  ⟨csIdentifier_valid hn, csIdentifier_not_keyword hn, rfl, csIdentifier_idem n⟩

/-- C3 witness: the amended theorem applied at the concrete keyword
identifier for, whose sanitized form is for with an underscore appended. -/
theorem claim_C3_witness :
    ("for" : String) ≠ "" ∧
      (validCsIdent (csIdentifier "for") = true ∧
       csIdentifier "for" ∉ csKeywords ∧
       csIdentifier "" = "" ∧
       csIdentifier (csIdentifier "for") = csIdentifier "for") :=
  ⟨by decide, claim_C3_identifier_sanitization "for" (by decide)⟩

/-! ## Association lists

The C# Dictionary objects of the emitted runtime and the Go map of the
return-shape collector are modelled as association lists with unique keys. -/

def alookup {α β : Type} [DecidableEq α] (k : α) : List (α × β) → Option β
  | [] => none
  | p :: rest => if p.1 = k then some p.2 else alookup k rest

lemma alookup_nil {α β : Type} [DecidableEq α] (k : α) :
    alookup k ([] : List (α × β)) = none := rfl

lemma alookup_cons {α β : Type} [DecidableEq α] (k : α) (p : α × β) (l : List (α × β)) :
    alookup k (p :: l) = if p.1 = k then some p.2 else alookup k l := rfl

lemma alookup_append {α β : Type} [DecidableEq α] (k : α) (l₁ l₂ : List (α × β)) :
    alookup k (l₁ ++ l₂) =
      match alookup k l₁ with
      | some v => some v
      | none => alookup k l₂ := by
  induction l₁ with
  | nil => simp [alookup]
  | cons p rest ih =>
    by_cases h : p.1 = k
    · simp [alookup, h]
    · simp [alookup, h, ih]

lemma alookup_isSome_iff_mem {α β : Type} [DecidableEq α] (k : α) (l : List (α × β)) :
    (alookup k l).isSome = true ↔ k ∈ l.map Prod.fst := by
  induction l with
  | nil => simp [alookup]
  | cons p rest ih =>
    by_cases h : p.1 = k
    · simp [alookup, h]
    · simp only [alookup, h, if_false, List.map_cons, List.mem_cons, ih]
      constructor
      · exact Or.inr
      · rintro (hh | hh)
        · exact absurd hh.symm h
        · exact hh

lemma alookup_eq_none_iff_not_mem {α β : Type} [DecidableEq α] (k : α) (l : List (α × β)) :
    alookup k l = none ↔ k ∉ l.map Prod.fst := by
  rw [← alookup_isSome_iff_mem]
  cases alookup k l <;> simp

/-! ## Lexicographic string order and insertion sort

Embedding of the sort.Strings call of emitReturnStructs.  Go compares
strings byte-wise; for UTF-8 encoded strings the byte-wise order coincides
with the code-point order used here. -/

def lexLe : List Char → List Char → Bool
  | [], _ => true
  | _ :: _, [] => false
  | a :: as, b :: bs => if a < b then true else if b < a then false else lexLe as bs

def strLe (a b : String) : Bool := lexLe a.data b.data

lemma lexLe_total (a b : List Char) : lexLe a b = true ∨ lexLe b a = true := by
  induction a generalizing b with
  | nil => left; rfl
  | cons x xs ih =>
    cases b with
    | nil => right; rfl
    | cons y ys =>
      rcases lt_trichotomy x y with h | h | h
      · left; simp [lexLe, h]
      · subst h
        rcases ih ys with hh | hh
        · left; simp [lexLe, lt_irrefl, hh]
        · right; simp [lexLe, lt_irrefl, hh]
      · right; simp [lexLe, h]

lemma lexLe_trans {a b c : List Char} (h₁ : lexLe a b = true) (h₂ : lexLe b c = true) :
    lexLe a c = true := by
  induction a generalizing b c with
  | nil => rfl
  | cons x xs ih =>
    cases b with
    | nil => exact absurd h₁ (by simp [lexLe])
    | cons y ys =>
      cases c with
      | nil => exact absurd h₂ (by simp [lexLe])
      | cons z zs =>
        by_cases hxy : x < y
        · by_cases hyz : y < z
          · simp [lexLe, lt_trans hxy hyz]
          · by_cases hzy : z < y
            · exact absurd h₂ (by simp [lexLe, hyz, hzy])
            · have : y = z := le_antisymm (not_lt.mp hzy) (not_lt.mp hyz)
              subst this
              simp [lexLe, hxy]
        · by_cases hyx : y < x
          · exact absurd h₁ (by simp [lexLe, hxy, hyx])
          · have hxyeq : x = y := le_antisymm (not_lt.mp hyx) (not_lt.mp hxy)
            subst hxyeq
            simp only [lexLe, if_neg (lt_irrefl x)] at h₁
            by_cases hyz : x < z
            · simp [lexLe, hyz]
            · by_cases hzy : z < x
              · exact absurd h₂ (by simp [lexLe, hyz, hzy])
              · have : x = z := le_antisymm (not_lt.mp hzy) (not_lt.mp hyz)
                subst this
                simp only [lexLe, if_neg (lt_irrefl x)] at h₂ ⊢
                exact ih h₁ h₂

lemma strLe_total (a b : String) : strLe a b = true ∨ strLe b a = true :=
  lexLe_total a.data b.data

lemma strLe_trans {a b c : String} (h₁ : strLe a b = true) (h₂ : strLe b c = true) :
    strLe a c = true :=
  lexLe_trans h₁ h₂

def insertSorted (x : String) : List String → List String
  | [] => [x]
  | y :: ys => if strLe x y then x :: y :: ys else y :: insertSorted x ys

def sortStrings : List String → List String
  | [] => []
  | x :: xs => insertSorted x (sortStrings xs)

lemma mem_insertSorted {x a : String} {l : List String} :
    a ∈ insertSorted x l ↔ a = x ∨ a ∈ l := by
  induction l with
  | nil => simp [insertSorted]
  | cons y ys ih =>
    by_cases h : strLe x y
    · simp [insertSorted, h]
    · simp only [insertSorted, h, Bool.false_eq_true, if_false, List.mem_cons, ih]
      tauto

lemma sorted_insertSorted {x : String} {l : List String}
    (h : l.Pairwise (fun a b => strLe a b = true)) :
    (insertSorted x l).Pairwise (fun a b => strLe a b = true) := by
  induction l with
  | nil => simp [insertSorted]
  | cons y ys ih =>
    rcases List.pairwise_cons.mp h with ⟨hy, hys⟩
    by_cases hxy : strLe x y
    · simp only [insertSorted, hxy, if_true]
      refine List.pairwise_cons.mpr ⟨?_, h⟩
      intro b hb
      rcases List.mem_cons.mp hb with hb | hb
      · rw [hb]; exact hxy
      · exact strLe_trans hxy (hy b hb)
    · have hyx : strLe y x = true := by
        rcases strLe_total x y with hh | hh
        · exact absurd hh hxy
        · exact hh
      simp only [insertSorted, hxy, Bool.false_eq_true, if_false]
      refine List.pairwise_cons.mpr ⟨?_, ih hys⟩
      intro b hb
      rcases mem_insertSorted.mp hb with hb | hb
      · rw [hb]; exact hyx
      · exact hy b hb

lemma sortStrings_sorted (l : List String) :
    (sortStrings l).Pairwise (fun a b => strLe a b = true) := by
  induction l with
  | nil => simp [sortStrings]
  | cons x xs ih => exact sorted_insertSorted ih

lemma mem_sortStrings {a : String} {l : List String} :
    a ∈ sortStrings l ↔ a ∈ l := by
  induction l with
  | nil => simp [sortStrings]
  | cons x xs ih =>
    simp only [sortStrings, mem_insertSorted, ih, List.mem_cons]

/-! ## Return-shape collector

Embedding of collectReturnStructs / emitReturnStructs (source).  A callable
is any of the shapes the source iterates: package functions, struct
methods, interface methods (both call directions), abstracted here by the
canonical C name the source computes for it and its Go result-type list. -/

structure Callable where
  cName : String
  results : List Ty
deriving DecidableEq, Repr

/-- Embedding of csReturnStructName (source). -/
def csReturnStructName (cName : String) : String :=
  csIdentifier ("CProxy_" ++ cName ++ "_Return")

/-- Embedding of collectReturnStructs (source): walk the callables; skip
result arity of at most one; skip a canonical name already registered;
otherwise register the full result-type list under the canonical name. -/
def collectReturnStructs : List Callable → List (String × List Ty) → List (String × List Ty)
  | [], acc => acc
  | c :: rest, acc =>
    if c.results.length ≤ 1 then collectReturnStructs rest acc
    else if (alookup c.cName acc).isSome then collectReturnStructs rest acc
    else collectReturnStructs rest (acc ++ [(c.cName, c.results)])

/-- Embedding of emitReturnStructs (source): sort the collected canonical
names, and emit for each a record named by csReturnStructName whose fields
are the wire types of the registered result types, in order. -/
def emitReturnStructs (rs : List (String × List Ty)) : List (String × List String) :=
  (sortStrings (rs.map Prod.fst)).map
    (fun name => (csReturnStructName name, ((alookup name rs).getD []).map csNativeType))

/-- Predicate of the first-registration-wins lookup: same canonical name
and result arity greater than one. -/
def collectsAs (name : String) (c : Callable) : Bool :=
  decide (c.cName = name) && decide (1 < c.results.length)

lemma collect_lookup (cs : List Callable) (acc : List (String × List Ty)) (name : String) :
    alookup name (collectReturnStructs cs acc) =
      match alookup name acc with
      | some v => some v
      | none => (cs.find? (collectsAs name)).map Callable.results := by
  induction cs generalizing acc with
  | nil =>
    simp only [collectReturnStructs, List.find?_nil, Option.map_none]
    cases alookup name acc <;> rfl
  | cons c rest ih =>
    by_cases harity : c.results.length ≤ 1
    · have hpred : collectsAs name c = false := by
        simp [collectsAs, Nat.lt_iff_add_one_le, Nat.not_lt.mpr harity]
      simp only [collectReturnStructs, harity, if_pos, ih, List.find?_cons, hpred]
    · simp only [collectReturnStructs, harity, if_false]
      by_cases hsome : (alookup c.cName acc).isSome
      · rw [if_pos hsome, ih]
        by_cases hname : c.cName = name
        · subst hname
          obtain ⟨v, hv⟩ := Option.isSome_iff_exists.mp hsome
          simp [hv]
        · have hpred : collectsAs name c = false := by simp [collectsAs, hname]
          simp only [List.find?_cons, hpred]
      · rw [if_neg hsome, ih]
        by_cases hname : c.cName = name
        · subst hname
          have hnone : alookup c.cName acc = none := by
            cases h : alookup c.cName acc
            · rfl
            · rw [h] at hsome; simp at hsome
          have hpred : collectsAs c.cName c = true := by
            simp [collectsAs, Nat.lt_of_not_le harity]
          rw [alookup_append, hnone]
          simp [alookup, List.find?_cons, hpred]
        · have hpred : collectsAs name c = false := by simp [collectsAs, hname]
          rw [alookup_append]
          have : alookup name [(c.cName, c.results)] = none := by
            simp [alookup, hname]
          rw [this]
          simp only [List.find?_cons, hpred]
          cases alookup name acc <;> rfl

lemma collect_keys_nodup (cs : List Callable) (acc : List (String × List Ty))
    (hacc : (acc.map Prod.fst).Nodup) :
    ((collectReturnStructs cs acc).map Prod.fst).Nodup := by
  induction cs generalizing acc with
  | nil => exact hacc
  | cons c rest ih =>
    by_cases harity : c.results.length ≤ 1
    · simp only [collectReturnStructs, harity, if_pos]
      exact ih acc hacc
    · simp only [collectReturnStructs, harity, if_false]
      by_cases hsome : (alookup c.cName acc).isSome
      · rw [if_pos hsome]; exact ih acc hacc
      · rw [if_neg hsome]
        apply ih
        rw [List.map_append]
        refine List.Nodup.append hacc (by simp) ?_
        intro a ha hb
        simp only [List.map_cons, List.map_nil, List.mem_singleton] at hb
        rw [hb] at ha
        have hnone : alookup c.cName acc = none := by
          cases h : alookup c.cName acc
          · rfl
          · rw [h] at hsome; simp at hsome
        exact (alookup_eq_none_iff_not_mem c.cName acc).mp hnone ha

/-- C8: return-shape collection.  A wire record is registered exactly for
canonical names carried by some callable of result arity greater than one;
for duplicate canonical names the first registration wins (the lookup over
the collected list equals the first matching callable's result list); keys
are collected at most once; emission iterates the canonical names in
lexicographically sorted order (a permutation of the collected keys); and
the emitted record for a collected name carries the wire types of its
result types in result order. -/
theorem claim_C8_return_shape_collection (cs : List Callable) :
    (∀ name, alookup name (collectReturnStructs cs []) =
        (cs.find? (collectsAs name)).map Callable.results) ∧
    ((collectReturnStructs cs []).map Prod.fst).Nodup ∧
    (sortStrings ((collectReturnStructs cs []).map Prod.fst)).Pairwise
        (fun a b => strLe a b = true) ∧
    (∀ a, a ∈ sortStrings ((collectReturnStructs cs []).map Prod.fst) ↔
        a ∈ (collectReturnStructs cs []).map Prod.fst) ∧
    (∀ name fields, alookup name (collectReturnStructs cs []) = some fields →
        (csReturnStructName name, fields.map csNativeType) ∈
          emitReturnStructs (collectReturnStructs cs [])) := by
  refine ⟨?_, collect_keys_nodup cs [] (by simp), sortStrings_sorted _,
      fun a => mem_sortStrings, ?_⟩
  · intro name
    rw [collect_lookup cs [] name]
    rfl
  · intro name fields hlook
    have hmemkeys : name ∈ (collectReturnStructs cs []).map Prod.fst := by
      rw [← alookup_isSome_iff_mem, hlook]
      rfl
    have hmemsorted : name ∈ sortStrings ((collectReturnStructs cs []).map Prod.fst) :=
      mem_sortStrings.mpr hmemkeys
    unfold emitReturnStructs
    refine List.mem_map.mpr ⟨name, hmemsorted, ?_⟩
    rw [hlook]
    rfl

def csExample : List Callable :=
  [⟨"proxypkg_B", [Ty.basic .int, Ty.errorTy]⟩,
   ⟨"proxypkg_A", [Ty.basic .bool, Ty.errorTy]⟩,
   ⟨"proxypkg_B", [Ty.errorTy, Ty.errorTy]⟩,
   ⟨"proxypkg_C", [Ty.basic .int]⟩]

/-- C8 witness: on a concrete callable list with a duplicate canonical
name and a single-result callable, the first registration wins, the
single-result callable produces no record, and the emitted record for the
duplicated name carries the wire field types long and int. -/
theorem claim_C8_witness :
    alookup "proxypkg_B" (collectReturnStructs csExample []) =
      some [Ty.basic BasicKind.int, Ty.errorTy] ∧
    alookup "proxypkg_C" (collectReturnStructs csExample []) = none ∧
    (csReturnStructName "proxypkg_B", ["long", "int"]) ∈
      emitReturnStructs (collectReturnStructs csExample []) := by
  refine ⟨?_, ?_, ?_⟩
  · rw [(claim_C8_return_shape_collection csExample).1 "proxypkg_B"]
    rfl
  · rw [(claim_C8_return_shape_collection csExample).1 "proxypkg_C"]
    rfl
  · exact (claim_C8_return_shape_collection csExample).2.2.2.2 "proxypkg_B"
      [Ty.basic BasicKind.int, Ty.errorTy]
      (by rw [(claim_C8_return_shape_collection csExample).1 "proxypkg_B"]; rfl)

/-! ## Supported signatures and constructor collection -/

/-- Modelled from the spec: the Generator's isSupported predicate lives in
the bind package outside the provided sources.  Per spec section 3 the
supported types are the basic scalars (bool, the signed integer widths,
uint8, float32, float64), string, the byte slice, pointer to named, and
named types; everything else is rejected. -/
def isSupported : Ty → Bool
  | .basic k =>
    match k with
    | .bool | .int | .int8 | .int16 | .int32 | .int64
    | .uint8 | .float32 | .float64 | .string => true
    | _ => false
  | .slice e => e = BasicKind.uint8
  | .ptr t =>
    match t with
    | .named _ _ _ => true
    | .errorTy => true
    | _ => false
  | .named _ _ _ => true
  | .errorTy => true
  | .otherTy => false

structure Sig where
  params : List Ty
  results : List Ty
deriving DecidableEq, Repr

/-- Modelled from the spec: isSigSupported (bind package, outside the
provided sources): a signature is supported when every parameter type and
every result type is supported. -/
def isSigSupported (s : Sig) : Bool :=
  s.params.all isSupported && s.results.all isSupported

/-- Embedding of isConsSigSupported (source): an unsupported signature is
rejected; a signature whose single parameter has basic type int32 or
uint32 is rejected because it clashes with the refnum-taking proxy
constructor; every other signature is accepted. -/
def isConsSigSupported (s : Sig) : Bool :=
  if !isSigSupported s then false
  else
    match s.params with
    | [p] =>
      match p with
      | .basic .int32 => false
      | .basic .uint32 => false
      | _ => true
    | _ => true

structure GoFunc where
  name : String
  sig : Sig
deriving DecidableEq, Repr

/-- Modelled from the spec: constructorType (bind package, outside the
provided sources).  A top-level function is a constructor for the struct S
when its result is S or pointer-to-S, optionally paired with a trailing
error result (spec section 3). -/
def constructorResultIsFor (sid : Nat) (sname : String) : Ty → Bool
  | .ptr (.named .structKind p n) => decide (p = sid) && decide (n = sname)
  | .named .structKind p n => decide (p = sid) && decide (n = sname)
  | _ => false

def isConstructorFor (sid : Nat) (sname : String) (f : GoFunc) : Bool :=
  match f.sig.results with
  | [t] => constructorResultIsFor sid sname t
  | [t, e] => constructorResultIsFor sid sname t && isErrorType e
  | _ => false

/-- Embedding of the constructor collection loop of genStructClass
(source): a package function is offered as a public constructor exactly
when constructorType matches the struct and isConsSigSupported accepts its
signature. -/
def collectConstructors (sid : Nat) (sname : String) (funcs : List GoFunc) : List GoFunc :=
  funcs.filter (fun f => isConstructorFor sid sname f && isConsSigSupported f.sig)

/-- C7: constructor-clash exclusion.  A constructor function whose
signature has exactly one parameter of basic type int32 or uint32 is never
collected as a public constructor; a constructor function with a supported
signature and any other parameter list (including a single int64
parameter) is collected. -/
theorem claim_C7_constructor_clash (sid : Nat) (sname : String) (funcs : List GoFunc)
    (f : GoFunc) (hf : f ∈ funcs) (hcons : isConstructorFor sid sname f = true) :
    ((f.sig.params = [Ty.basic .int32] ∨ f.sig.params = [Ty.basic .uint32]) →
        f ∉ collectConstructors sid sname funcs) ∧
    (isSigSupported f.sig = true →
      f.sig.params ≠ [Ty.basic .int32] → f.sig.params ≠ [Ty.basic .uint32] →
        f ∈ collectConstructors sid sname funcs) := by
  constructor
  · intro hps hmem
    have hpred := (List.mem_filter.mp hmem).2
    have hfalse : isConsSigSupported f.sig = false := by
      by_cases hsup : isSigSupported f.sig
      · rcases hps with hps | hps <;> simp [isConsSigSupported, hsup, hps]
      · have hb : isSigSupported f.sig = false := by simpa using hsup
        simp [isConsSigSupported, hb]
    rw [hfalse] at hpred
    simp at hpred
  · intro hsup h32 hu32
    have hcs : isConsSigSupported f.sig = true := by
      rcases hp : f.sig.params with _ | ⟨p, _ | ⟨q, rest⟩⟩
      · simp [isConsSigSupported, hsup, hp]
      · cases p with
        | basic k =>
          cases k
          all_goals first
            | exact absurd hp h32
            | exact absurd hp hu32
            | simp [isConsSigSupported, hsup, hp]
        | slice e => simp [isConsSigSupported, hsup, hp]
        | ptr t => simp [isConsSigSupported, hsup, hp]
        | named kind pk nm => simp [isConsSigSupported, hsup, hp]
        | errorTy => simp [isConsSigSupported, hsup, hp]
        | otherTy => simp [isConsSigSupported, hsup, hp]
      · simp [isConsSigSupported, hsup, hp]
    exact List.mem_filter.mpr ⟨hf, by simp [hcons, hcs]⟩

def consFuncsExample : List GoFunc :=
  [⟨"NewFoo", ⟨[Ty.basic .int32], [Ty.ptr (Ty.named .structKind 0 "Foo")]⟩⟩,
   ⟨"NewFoo64", ⟨[Ty.basic .int64], [Ty.ptr (Ty.named .structKind 0 "Foo"), Ty.errorTy]⟩⟩]

/-- C7 witness: for the concrete constructor pair of scenario S6, the
single-int32 constructor is excluded while the single-int64 constructor is
collected. -/
theorem claim_C7_witness :
    (⟨"NewFoo", ⟨[Ty.basic .int32], [Ty.ptr (Ty.named .structKind 0 "Foo")]⟩⟩ : GoFunc) ∉
        collectConstructors 0 "Foo" consFuncsExample ∧
    (⟨"NewFoo64", ⟨[Ty.basic .int64],
        [Ty.ptr (Ty.named .structKind 0 "Foo"), Ty.errorTy]⟩⟩ : GoFunc) ∈
      collectConstructors 0 "Foo" consFuncsExample := by
  constructor
  · exact (claim_C7_constructor_clash 0 "Foo" consFuncsExample _
      (by simp [consFuncsExample]) (by decide)).1 (Or.inl rfl)
  · exact (claim_C7_constructor_clash 0 "Foo" consFuncsExample _
      (by simp [consFuncsExample]) (by decide)).2 (by decide) (by decide) (by decide)

/-! ## More association-list operations -/

def aupdate {α β : Type} [DecidableEq α] (k : α) (v : β) (l : List (α × β)) : List (α × β) :=
  l.map (fun p => if p.1 = k then (k, v) else p)

def aerase {α β : Type} [DecidableEq α] (k : α) (l : List (α × β)) : List (α × β) :=
  l.filter (fun p => decide (p.1 ≠ k))

lemma alookup_aupdate_self {α β : Type} [DecidableEq α] (k : α) (v : β)
    (l : List (α × β)) (e : β) (h : alookup k l = some e) :
    alookup k (aupdate k v l) = some v := by
  induction l with
  | nil => exact absurd h (by simp [alookup])
  | cons p rest ih =>
    by_cases hp : p.1 = k
    · simp [aupdate, alookup, hp]
    · rw [alookup_cons, if_neg hp] at h
      simp only [aupdate, List.map_cons, if_neg hp]
      rw [alookup_cons, if_neg hp]
      exact ih h

lemma alookup_aupdate_ne {α β : Type} [DecidableEq α] {k k' : α} (v : β)
    (l : List (α × β)) (h : k' ≠ k) :
    alookup k' (aupdate k v l) = alookup k' l := by
  induction l with
  | nil => rfl
  | cons p rest ih =>
    simp only [aupdate, List.map_cons]
    by_cases hp : p.1 = k
    · rw [if_pos hp, alookup_cons, alookup_cons]
      rw [if_neg (show ((k, v) : α × β).1 ≠ k' from fun hh => h hh.symm),
        if_neg (show p.1 ≠ k' from fun hh => h (hh ▸ hp))]
      simpa [aupdate] using ih
    · rw [if_neg hp, alookup_cons, alookup_cons]
      by_cases hk : p.1 = k'
      · rw [if_pos hk, if_pos hk]
      · rw [if_neg hk, if_neg hk]
        simpa [aupdate] using ih

lemma aupdate_keys {α β : Type} [DecidableEq α] (k : α) (v : β) (l : List (α × β)) :
    (aupdate k v l).map Prod.fst = l.map Prod.fst := by
  induction l with
  | nil => rfl
  | cons p rest ih =>
    simp only [aupdate, List.map_cons] at ih ⊢
    by_cases hp : p.1 = k
    · rw [if_pos hp, ih]
      rw [show ((k, v) : α × β).1 = p.1 from hp.symm]
    · rw [if_neg hp, ih]

lemma alookup_aerase_self {α β : Type} [DecidableEq α] (k : α) (l : List (α × β)) :
    alookup k (aerase k l) = none := by
  induction l with
  | nil => rfl
  | cons p rest ih =>
    by_cases hp : p.1 = k
    · have hdrop : aerase k (p :: rest) = aerase k rest := by
        simp [aerase, List.filter_cons, hp]
      rw [hdrop]; exact ih
    · have hkeep : aerase k (p :: rest) = p :: aerase k rest := by
        simp [aerase, List.filter_cons, hp]
      rw [hkeep, alookup_cons, if_neg hp]; exact ih

lemma alookup_aerase_ne {α β : Type} [DecidableEq α] {k k' : α}
    (l : List (α × β)) (h : k' ≠ k) :
    alookup k' (aerase k l) = alookup k' l := by
  induction l with
  | nil => rfl
  | cons p rest ih =>
    by_cases hp : p.1 = k
    · have hdrop : aerase k (p :: rest) = aerase k rest := by
        simp [aerase, List.filter_cons, hp]
      rw [hdrop, ih, alookup_cons, if_neg (show p.1 ≠ k' from fun hh => h (hh ▸ hp))]
    · have hkeep : aerase k (p :: rest) = p :: aerase k rest := by
        simp [aerase, List.filter_cons, hp]
      rw [hkeep, alookup_cons, alookup_cons]
      by_cases hk : p.1 = k'
      · rw [if_pos hk, if_pos hk]
      · rw [if_neg hk, if_neg hk]; exact ih

lemma aerase_keys_sublist {α β : Type} [DecidableEq α] (k : α) (l : List (α × β)) :
    ((aerase k l).map Prod.fst).Sublist (l.map Prod.fst) :=
  List.Sublist.map Prod.fst (List.filter_sublist l)

/-! ## The emitted reference runtime: RefTracker

Embedding of the RefTracker class emitted by genSeqSupport (source): a
pair of dictionaries (refnum to counted entry, object to refnum by
reference identity), a monotonic refnum counter starting at RefOffset, and
overflow checks against int.MaxValue.  Managed objects are identified by a
natural number standing for their reference identity; a nullable object is
an Option over that. -/

def NullRefNum : Int := 41
def RefOffset : Int := 42
def intMaxValue : Int := 2147483647

structure Ref where
  value : Nat
  count : Int
deriving DecidableEq, Repr

structure RefTracker where
  nextRefnum : Int
  refs : List (Int × Ref)
  objectRefs : List (Nat × Int)
deriving DecidableEq, Repr

def RefTracker.initial : RefTracker := ⟨RefOffset, [], []⟩

inductive TrackerErr where
  | refnumOverflow | countOverflow | unknownRef
deriving DecidableEq, Repr

/-- Embedding of the emitted Ref.Inc: throws on int.MaxValue overflow,
otherwise increments the count. -/
def Ref.incCount (e : Ref) : Except TrackerErr Ref :=
  if e.count = intMaxValue then .error .countOverflow
  else .ok { e with count := e.count + 1 }

/-- Embedding of the emitted Ref.Dec: decrements the count with no check. -/
def Ref.decCount (e : Ref) : Ref := { e with count := e.count - 1 }

/-- Second half of the emitted RefTracker.Inc, after the refnum for the
object is known: a missing refs entry is created fresh (new Ref with count
zero) and then incremented, which cannot overflow, so the fresh branch
stores the entry directly with count one; an existing entry is incremented
with the overflow check. -/
def RefTracker.incEntry (t : RefTracker) (refnum : Int) (v : Nat) :
    Except TrackerErr (Int × RefTracker) :=
  match alookup refnum t.refs with
  | some entry =>
    match entry.incCount with
    | .error e => .error e
    | .ok entry' => .ok (refnum, { t with refs := aupdate refnum entry' t.refs })
  | none =>
    .ok (refnum, { t with refs := (refnum, (⟨v, 1⟩ : Ref)) :: t.refs })

/-- Embedding of the emitted RefTracker.Inc: a null value yields the
sentinel; an object already interned reuses its refnum; a new object
allocates the next refnum, throwing when the counter has reached
int.MaxValue. -/
def RefTracker.inc (t : RefTracker) (value : Option Nat) :
    Except TrackerErr (Int × RefTracker) :=
  match value with
  | none => .ok (NullRefNum, t)
  | some v =>
    match alookup v t.objectRefs with
    | some refnum => t.incEntry refnum v
    | none =>
      if t.nextRefnum = intMaxValue then .error .refnumOverflow
      else
        ({ t with
            nextRefnum := t.nextRefnum + 1,
            objectRefs := (v, t.nextRefnum) :: t.objectRefs }).incEntry t.nextRefnum v

/-- Embedding of the emitted RefTracker.IncRefnum: a non-positive or
sentinel refnum returns silently; an unknown refnum throws; a known entry
is incremented with the overflow check. -/
def RefTracker.incRefnum (t : RefTracker) (refnum : Int) : Except TrackerErr RefTracker :=
  if refnum ≤ 0 ∨ refnum = NullRefNum then .ok t
  else
    match alookup refnum t.refs with
    | none => .error .unknownRef
    | some entry =>
      match entry.incCount with
      | .error e => .error e
      | .ok entry' => .ok { t with refs := aupdate refnum entry' t.refs }

/-- Embedding of the emitted RefTracker.DecRefnum: a non-positive or
sentinel refnum returns silently, an unknown refnum returns silently; a
known entry is decremented, and when its count reaches zero the entry is
dropped from both dictionaries. -/
def RefTracker.decRefnum (t : RefTracker) (refnum : Int) : RefTracker :=
  if refnum ≤ 0 ∨ refnum = NullRefNum then t
  else
    match alookup refnum t.refs with
    | none => t
    | some entry =>
      if (entry.decCount).count ≤ 0 then
        { t with
            refs := aerase refnum t.refs,
            objectRefs := aerase entry.value t.objectRefs }
      else { t with refs := aupdate refnum entry.decCount t.refs }

/-- Embedding of the emitted RefTracker.GetRef: the sentinel yields null,
an unknown refnum throws, a known entry yields its object. -/
def RefTracker.getRef (t : RefTracker) (refnum : Int) : Except TrackerErr (Option Nat) :=
  if refnum = NullRefNum then .ok none
  else
    match alookup refnum t.refs with
    | none => .error .unknownRef
    | some entry => .ok (some entry.value)

/-! ### Instrumented execution: operations and effective inc/dec events -/

inductive TOp where
  | incObj (v : Option Nat)
  | incRefnum (r : Int)
  | decRefnum (r : Int)
deriving DecidableEq, Repr

inductive TEvent where
  | einc (r : Int)
  | edec (r : Int)
deriving DecidableEq, Repr

/-- One tracker operation together with the effective increment/decrement
events it performs: a successful non-null Inc and a successful
guard-passing IncRefnum each record one increment; a DecRefnum that found
its entry records one decrement; silently ignored calls record nothing. -/
def RefTracker.runOp (t : RefTracker) : TOp → Except TrackerErr (RefTracker × List TEvent)
  | .incObj v =>
    match t.inc v with
    | .error e => .error e
    | .ok (r, t') =>
      .ok (t', match v with | none => [] | some _ => [.einc r])
  | .incRefnum r =>
    match t.incRefnum r with
    | .error e => .error e
    | .ok t' =>
      .ok (t', if r ≤ 0 ∨ r = NullRefNum then [] else [.einc r])
  | .decRefnum r =>
    .ok (t.decRefnum r,
      if r ≤ 0 ∨ r = NullRefNum then []
      else
        match alookup r t.refs with
        | none => []
        | some _ => [.edec r])

def runOpsAux : RefTracker → List TEvent → List TOp → Except TrackerErr (RefTracker × List TEvent)
  | t, evs, [] => .ok (t, evs)
  | t, evs, op :: rest =>
    match t.runOp op with
    | .error e => .error e
    | .ok (t', evs') => runOpsAux t' (evs ++ evs') rest

def runOps (ops : List TOp) : Except TrackerErr (RefTracker × List TEvent) :=
  runOpsAux RefTracker.initial [] ops

def ecount (r : Int) : List TEvent → Nat
  | [] => 0
  | .einc r' :: rest => (if r' = r then 1 else 0) + ecount r rest
  | .edec _ :: rest => ecount r rest

def dcount (r : Int) : List TEvent → Nat
  | [] => 0
  | .edec r' :: rest => (if r' = r then 1 else 0) + dcount r rest
  | .einc _ :: rest => dcount r rest

/-- Net effective increments minus decrements for a refnum. -/
def net (evs : List TEvent) (r : Int) : Int :=
  (ecount r evs : Int) - (dcount r evs : Int)

/-- The count recorded for a refnum in the tracker, zero when absent. -/
def countOf (t : RefTracker) (r : Int) : Int :=
  match alookup r t.refs with
  | none => 0
  | some e => e.count

lemma ecount_append (r : Int) (a b : List TEvent) :
    ecount r (a ++ b) = ecount r a + ecount r b := by
  induction a with
  | nil => simp [ecount]
  | cons e rest ih =>
    cases e <;> simp [ecount, ih] <;> omega

lemma dcount_append (r : Int) (a b : List TEvent) :
    dcount r (a ++ b) = dcount r a + dcount r b := by
  induction a with
  | nil => simp [dcount]
  | cons e rest ih =>
    cases e <;> simp [dcount, ih] <;> omega

lemma net_append (a b : List TEvent) (r : Int) :
    net (a ++ b) r = net a r + net b r := by
  unfold net
  rw [ecount_append, dcount_append]
  push_cast
  ring

lemma net_single_inc (r r' : Int) : net [.einc r] r' = if r = r' then 1 else 0 := by
  by_cases h : r = r' <;> simp [net, ecount, dcount, h]

lemma net_single_dec (r r' : Int) : net [.edec r] r' = if r = r' then -1 else 0 := by
  by_cases h : r = r' <;> simp [net, ecount, dcount, h]

/-- Invariant of the reachable tracker states, instrumented with the
effective events so far: every stored count equals the net of the events
on its refnum and is at least one; the two dictionaries are mutually
inverse; every stored refnum lies between RefOffset and the allocation
counter. -/
structure TInv (t : RefTracker) (evs : List TEvent) : Prop where
  counts : ∀ r, countOf t r = net evs r
  pos : ∀ r e, alookup r t.refs = some e → 1 ≤ e.count
  corr1 : ∀ r e, alookup r t.refs = some e → alookup e.value t.objectRefs = some r
  corr2 : ∀ v r, alookup v t.objectRefs = some r →
    ∃ e, alookup r t.refs = some e ∧ e.value = v
  range : ∀ r e, alookup r t.refs = some e → RefOffset ≤ r ∧ r < t.nextRefnum
  next_ge : RefOffset ≤ t.nextRefnum

lemma TInv.initial : TInv RefTracker.initial [] := by
  refine ⟨?_, ?_, ?_, ?_, ?_, ?_⟩ <;>
    simp [countOf, alookup, net, ecount, dcount, RefTracker.initial, RefOffset]

lemma incCount_ok {e e' : Ref} (h : e.incCount = .ok e') :
    e'.value = e.value ∧ e'.count = e.count + 1 := by
  unfold Ref.incCount at h
  by_cases hc : e.count = intMaxValue
  · rw [if_pos hc] at h; cases h
  · rw [if_neg hc] at h
    cases h
    exact ⟨rfl, rfl⟩

lemma countOf_lookup_some {t : RefTracker} {r : Int} {e : Ref}
    (h : alookup r t.refs = some e) : countOf t r = e.count := by
  unfold countOf; rw [h]

lemma countOf_lookup_none {t : RefTracker} {r : Int}
    (h : alookup r t.refs = none) : countOf t r = 0 := by
  unfold countOf; rw [h]

lemma alookup_next_none {t : RefTracker} {evs : List TEvent} (hinv : TInv t evs) :
    alookup t.nextRefnum t.refs = none := by
  cases h : alookup t.nextRefnum t.refs with
  | none => rfl
  | some e => exact absurd (hinv.range _ _ h).2 (lt_irrefl _)

/-- Incrementing an existing entry preserves the invariant, recording one
effective increment. -/
lemma TInv.bump {t : RefTracker} {evs : List TEvent} (hinv : TInv t evs)
    {r : Int} {e e' : Ref} (he : alookup r t.refs = some e)
    (hinc : e.incCount = .ok e') :
    TInv { t with refs := aupdate r e' t.refs } (evs ++ [.einc r]) := by
  obtain ⟨hval, hcnt⟩ := incCount_ok hinc
  refine ⟨?_, ?_, ?_, ?_, ?_, hinv.next_ge⟩
  · intro r'
    rw [net_append, net_single_inc]
    by_cases hr : r' = r
    · subst hr
      have h1 : countOf { t with refs := aupdate r' e' t.refs } r' = e'.count := by
        unfold countOf
        rw [alookup_aupdate_self r' e' t.refs e he]
      have h2 : countOf t r' = e.count := by unfold countOf; rw [he]
      rw [h1, hcnt, if_pos rfl, ← h2, hinv.counts r']
    · have h1 : countOf { t with refs := aupdate r e' t.refs } r' = countOf t r' := by
        unfold countOf
        rw [alookup_aupdate_ne e' t.refs hr]
      rw [h1, if_neg (fun hh => hr hh.symm), hinv.counts r']
      ring
  · intro r' e0 h0
    by_cases hr : r' = r
    · subst hr
      rw [alookup_aupdate_self r' e' t.refs e he] at h0
      cases h0
      rw [hcnt]
      have := hinv.pos r' e he
      omega
    · rw [alookup_aupdate_ne e' t.refs hr] at h0
      exact hinv.pos r' e0 h0
  · intro r' e0 h0
    by_cases hr : r' = r
    · subst hr
      rw [alookup_aupdate_self r' e' t.refs e he] at h0
      cases h0
      rw [hval]
      exact hinv.corr1 r' e he
    · rw [alookup_aupdate_ne e' t.refs hr] at h0
      exact hinv.corr1 r' e0 h0
  · intro v r' h0
    obtain ⟨e0, he0, hv0⟩ := hinv.corr2 v r' h0
    by_cases hr : r' = r
    · subst hr
      refine ⟨e', alookup_aupdate_self r' e' t.refs e he, ?_⟩
      rw [he] at he0
      cases he0
      rw [hval]
      exact hv0
    · exact ⟨e0, by rw [alookup_aupdate_ne e' t.refs hr]; exact he0, hv0⟩
  · intro r' e0 h0
    by_cases hr : r' = r
    · subst hr
      exact hinv.range r' e he
    · rw [alookup_aupdate_ne e' t.refs hr] at h0
      exact hinv.range r' e0 h0

/-- Interning a fresh object at the next refnum preserves the invariant,
recording one effective increment on the newly allocated refnum. -/
lemma TInv.fresh {t : RefTracker} {evs : List TEvent} (hinv : TInv t evs)
    {v : Nat} (hv : alookup v t.objectRefs = none) :
    TInv { nextRefnum := t.nextRefnum + 1,
           refs := (t.nextRefnum, (⟨v, 1⟩ : Ref)) :: t.refs,
           objectRefs := (v, t.nextRefnum) :: t.objectRefs }
         (evs ++ [.einc t.nextRefnum]) := by
  have hnone := alookup_next_none hinv
  refine ⟨?_, ?_, ?_, ?_, ?_,
    le_trans hinv.next_ge (le_of_lt (lt_add_one t.nextRefnum))⟩
  · intro r'
    rw [net_append, net_single_inc]
    by_cases hr : t.nextRefnum = r'
    · have hnew : alookup r' ((t.nextRefnum, (⟨v, 1⟩ : Ref)) :: t.refs) = some ⟨v, 1⟩ := by
        rw [alookup_cons, if_pos hr]
      rw [countOf_lookup_some hnew, if_pos hr]
      have h2 := hinv.counts r'
      rw [countOf_lookup_none (hr ▸ hnone)] at h2
      show (1 : Int) = net evs r' + 1
      omega
    · have hnew : alookup r' ((t.nextRefnum, (⟨v, 1⟩ : Ref)) :: t.refs) =
          alookup r' t.refs := by
        rw [alookup_cons, if_neg hr]
      have h2 := hinv.counts r'
      unfold countOf at h2 ⊢
      simp only [] at h2 ⊢
      rw [hnew, h2, if_neg hr]
      ring
  · intro r' e0 h0
    rw [alookup_cons] at h0
    by_cases hr : t.nextRefnum = r'
    · rw [if_pos hr] at h0
      cases h0
      exact le_refl 1
    · rw [if_neg hr] at h0
      exact hinv.pos r' e0 h0
  · intro r' e0 h0
    rw [alookup_cons] at h0
    by_cases hr : t.nextRefnum = r'
    · rw [if_pos hr] at h0
      cases h0
      rw [alookup_cons, if_pos rfl]
      rw [hr]
    · rw [if_neg hr] at h0
      have hold := hinv.corr1 r' e0 h0
      have hne : e0.value ≠ v := by
        intro hh
        rw [hh, hv] at hold
        cases hold
      rw [alookup_cons, if_neg (fun hh => hne hh.symm)]
      exact hold
  · intro v' r' h0
    rw [alookup_cons] at h0
    by_cases hvv : v = v'
    · rw [if_pos hvv] at h0
      cases h0
      refine ⟨⟨v, 1⟩, ?_, hvv⟩
      rw [alookup_cons, if_pos rfl]
    · rw [if_neg hvv] at h0
      obtain ⟨e0, he0, hval0⟩ := hinv.corr2 v' r' h0
      have hlt := (hinv.range r' e0 he0).2
      refine ⟨e0, ?_, hval0⟩
      rw [alookup_cons, if_neg (fun hh => absurd (hh ▸ hlt) (lt_irrefl _))]
      exact he0
  · intro r' e0 h0
    rw [alookup_cons] at h0
    by_cases hr : t.nextRefnum = r'
    · rw [if_pos hr] at h0
      subst hr
      exact ⟨hinv.next_ge, lt_add_one t.nextRefnum⟩
    · rw [if_neg hr] at h0
      have hres := hinv.range r' e0 h0
      exact ⟨hres.1, lt_trans hres.2 (lt_add_one t.nextRefnum)⟩

lemma decRefnum_guard {t : RefTracker} {r : Int} (hg : r ≤ 0 ∨ r = NullRefNum) :
    t.decRefnum r = t := by
  unfold RefTracker.decRefnum
  rw [if_pos hg]

lemma decRefnum_unknown {t : RefTracker} {r : Int} (hg : ¬(r ≤ 0 ∨ r = NullRefNum))
    (he : alookup r t.refs = none) : t.decRefnum r = t := by
  unfold RefTracker.decRefnum
  rw [if_neg hg]
  simp only [he]

lemma decRefnum_remove {t : RefTracker} {r : Int} {e : Ref}
    (hg : ¬(r ≤ 0 ∨ r = NullRefNum)) (he : alookup r t.refs = some e)
    (hz : e.count ≤ 1) :
    t.decRefnum r = { t with refs := aerase r t.refs,
                             objectRefs := aerase e.value t.objectRefs } := by
  unfold RefTracker.decRefnum
  rw [if_neg hg]
  simp only [he, Ref.decCount]
  rw [if_pos (show e.count - 1 ≤ 0 by omega)]

lemma decRefnum_update {t : RefTracker} {r : Int} {e : Ref}
    (hg : ¬(r ≤ 0 ∨ r = NullRefNum)) (he : alookup r t.refs = some e)
    (hz : ¬(e.count ≤ 1)) :
    t.decRefnum r = { t with refs := aupdate r e.decCount t.refs } := by
  unfold RefTracker.decRefnum
  rw [if_neg hg]
  simp only [he, Ref.decCount]
  rw [if_neg (show ¬(e.count - 1 ≤ 0) by omega)]

/-- DecRefnum preserves the invariant: either branch records exactly the
effective decrement that the instrumentation attributes to it. -/
lemma TInv.dec {t : RefTracker} {evs : List TEvent} (hinv : TInv t evs) (r : Int) :
    TInv (t.decRefnum r)
      (evs ++ (if r ≤ 0 ∨ r = NullRefNum then []
        else match alookup r t.refs with | none => [] | some _ => [.edec r])) := by
  by_cases hg : r ≤ 0 ∨ r = NullRefNum
  · rw [if_pos hg, List.append_nil, decRefnum_guard hg]
    exact hinv
  · rw [if_neg hg]
    cases he : alookup r t.refs with
    | none =>
      rw [List.append_nil, decRefnum_unknown hg he]
      exact hinv
    | some e =>
      show TInv (t.decRefnum r) (evs ++ [.edec r])
      have hpos := hinv.pos r e he
      by_cases hz : e.count ≤ 1
      · rw [decRefnum_remove hg he hz]
        refine ⟨?_, ?_, ?_, ?_, ?_, hinv.next_ge⟩
        · intro r'
          rw [net_append, net_single_dec]
          by_cases hr : r = r'
          · have hnone : alookup r' (aerase r t.refs) = none := by
              rw [← hr]
              exact alookup_aerase_self r t.refs
            rw [countOf_lookup_none hnone, if_pos hr]
            have h2 := hinv.counts r'
            rw [← hr] at h2 ⊢
            rw [countOf_lookup_some he] at h2
            omega
          · have hsame : alookup r' (aerase r t.refs) = alookup r' t.refs :=
              alookup_aerase_ne t.refs (fun hh => hr hh.symm)
            have h2 := hinv.counts r'
            unfold countOf at h2 ⊢
            simp only [] at h2 ⊢
            rw [hsame, h2, if_neg hr]
            ring
        · intro r' e0 h0
          simp only [] at h0
          by_cases hr : r' = r
          · rw [hr, alookup_aerase_self] at h0
            cases h0
          · rw [alookup_aerase_ne t.refs hr] at h0
            exact hinv.pos r' e0 h0
        · intro r' e0 h0
          simp only [] at h0 ⊢
          by_cases hr : r' = r
          · rw [hr, alookup_aerase_self] at h0
            cases h0
          · rw [alookup_aerase_ne t.refs hr] at h0
            have hold := hinv.corr1 r' e0 h0
            have hvne : e0.value ≠ e.value := by
              intro hh
              have h1 := hinv.corr1 r e he
              rw [hh, h1] at hold
              cases hold
              exact hr rfl
            rw [alookup_aerase_ne t.objectRefs hvne]
            exact hold
        · intro v' r' h0
          simp only [] at h0 ⊢
          by_cases hvv : v' = e.value
          · rw [hvv, alookup_aerase_self] at h0
            cases h0
          · rw [alookup_aerase_ne t.objectRefs hvv] at h0
            obtain ⟨e0, he0, hval0⟩ := hinv.corr2 v' r' h0
            have hrne : r' ≠ r := by
              intro hh
              rw [hh, he] at he0
              cases he0
              exact hvv hval0.symm
            refine ⟨e0, ?_, hval0⟩
            rw [alookup_aerase_ne t.refs hrne]
            exact he0
        · intro r' e0 h0
          simp only [] at h0
          by_cases hr : r' = r
          · rw [hr, alookup_aerase_self] at h0
            cases h0
          · rw [alookup_aerase_ne t.refs hr] at h0
            exact hinv.range r' e0 h0
      · rw [decRefnum_update hg he hz]
        refine ⟨?_, ?_, ?_, ?_, ?_, hinv.next_ge⟩
        · intro r'
          rw [net_append, net_single_dec]
          by_cases hr : r = r'
          · have hupd : alookup r' (aupdate r e.decCount t.refs) = some e.decCount := by
              rw [← hr]
              exact alookup_aupdate_self r e.decCount t.refs e he
            rw [countOf_lookup_some hupd, if_pos hr]
            have h2 := hinv.counts r'
            rw [← hr] at h2 ⊢
            rw [countOf_lookup_some he] at h2
            simp only [Ref.decCount]
            omega
          · have hsame : alookup r' (aupdate r e.decCount t.refs) = alookup r' t.refs :=
              alookup_aupdate_ne e.decCount t.refs (fun hh => hr hh.symm)
            have h2 := hinv.counts r'
            unfold countOf at h2 ⊢
            simp only [] at h2 ⊢
            rw [hsame, h2, if_neg hr]
            ring
        · intro r' e0 h0
          simp only [] at h0
          by_cases hr : r' = r
          · rw [hr, alookup_aupdate_self r e.decCount t.refs e he] at h0
            cases h0
            simp only [Ref.decCount]
            omega
          · rw [alookup_aupdate_ne e.decCount t.refs hr] at h0
            exact hinv.pos r' e0 h0
        · intro r' e0 h0
          simp only [] at h0 ⊢
          by_cases hr : r' = r
          · rw [hr, alookup_aupdate_self r e.decCount t.refs e he] at h0
            cases h0
            rw [hr]
            exact hinv.corr1 r e he
          · rw [alookup_aupdate_ne e.decCount t.refs hr] at h0
            exact hinv.corr1 r' e0 h0
        · intro v' r' h0
          simp only [] at h0 ⊢
          obtain ⟨e0, he0, hval0⟩ := hinv.corr2 v' r' h0
          by_cases hr : r' = r
          · refine ⟨e.decCount, ?_, ?_⟩
            · rw [hr]
              exact alookup_aupdate_self r e.decCount t.refs e he
            · rw [hr, he] at he0
              cases he0
              exact hval0
          · refine ⟨e0, ?_, hval0⟩
            rw [alookup_aupdate_ne e.decCount t.refs hr]
            exact he0
        · intro r' e0 h0
          simp only [] at h0
          by_cases hr : r' = r
          · rw [hr] at h0 ⊢
            exact hinv.range r e he
          · rw [alookup_aupdate_ne e.decCount t.refs hr] at h0
            exact hinv.range r' e0 h0

/-- Every successful operation preserves the invariant with its recorded
events appended. -/
lemma runOp_preserves {t : RefTracker} {evs : List TEvent} {op : TOp}
    {t' : RefTracker} {evs' : List TEvent} (hinv : TInv t evs)
    (h : t.runOp op = .ok (t', evs')) : TInv t' (evs ++ evs') := by
  cases op with
  | incObj v =>
    cases v with
    | none =>
      simp only [RefTracker.runOp, RefTracker.inc] at h
      simp only [Except.ok.injEq, Prod.mk.injEq] at h
      obtain ⟨h1, h2⟩ := h
      subst h1; subst h2
      simpa using hinv
    | some v' =>
      simp only [RefTracker.runOp] at h
      cases hov : alookup v' t.objectRefs with
      | some refnum =>
        obtain ⟨e, he, hev⟩ := hinv.corr2 v' refnum hov
        simp only [RefTracker.inc, hov, RefTracker.incEntry, he] at h
        cases hinc : e.incCount with
        | error err => rw [hinc] at h; simp at h
        | ok e' =>
          rw [hinc] at h
          simp only [Except.ok.injEq, Prod.mk.injEq] at h
          obtain ⟨h1, h2⟩ := h
          subst h1; subst h2
          exact hinv.bump he hinc
      | none =>
        simp only [RefTracker.inc, hov] at h
        by_cases hmax : t.nextRefnum = intMaxValue
        · rw [if_pos hmax] at h; simp at h
        · rw [if_neg hmax] at h
          have hnone := alookup_next_none hinv
          simp only [RefTracker.incEntry, hnone] at h
          simp only [Except.ok.injEq, Prod.mk.injEq] at h
          obtain ⟨h1, h2⟩ := h
          subst h1; subst h2
          exact hinv.fresh hov
  | incRefnum r =>
    simp only [RefTracker.runOp] at h
    by_cases hg : r ≤ 0 ∨ r = NullRefNum
    · simp only [RefTracker.incRefnum, if_pos hg] at h
      simp only [Except.ok.injEq, Prod.mk.injEq] at h
      obtain ⟨h1, h2⟩ := h
      subst h1; subst h2
      simpa using hinv
    · simp only [RefTracker.incRefnum, if_neg hg] at h
      cases he : alookup r t.refs with
      | none =>
        simp only [he] at h
        simp at h
      | some e =>
        simp only [he] at h
        cases hinc : e.incCount with
        | error err =>
          simp only [hinc] at h
          simp at h
        | ok e' =>
          simp only [hinc] at h
          simp only [Except.ok.injEq, Prod.mk.injEq] at h
          obtain ⟨h1, h2⟩ := h
          subst h1; subst h2
          exact hinv.bump he hinc
  | decRefnum r =>
    simp only [RefTracker.runOp] at h
    simp only [Except.ok.injEq, Prod.mk.injEq] at h
    obtain ⟨h1, h2⟩ := h
    subst h1; subst h2
    exact hinv.dec r

lemma runOpsAux_preserves (ops : List TOp) : ∀ (t : RefTracker) (evs : List TEvent)
    (t' : RefTracker) (evs' : List TEvent), TInv t evs →
    runOpsAux t evs ops = .ok (t', evs') → TInv t' evs' := by
  induction ops with
  | nil =>
    intro t evs t' evs' hinv h
    simp only [runOpsAux, Except.ok.injEq, Prod.mk.injEq] at h
    obtain ⟨h1, h2⟩ := h
    subst h1; subst h2
    exact hinv
  | cons op rest ih =>
    intro t evs t' evs' hinv h
    simp only [runOpsAux] at h
    cases hop : t.runOp op with
    | error e => rw [hop] at h; simp at h
    | ok p =>
      obtain ⟨t2, evs2⟩ := p
      rw [hop] at h
      exact ih t2 (evs ++ evs2) t' evs' (runOp_preserves hinv hop) h

lemma runOps_inv {ops : List TOp} {t : RefTracker} {evs : List TEvent}
    (h : runOps ops = .ok (t, evs)) : TInv t evs :=
  runOpsAux_preserves ops RefTracker.initial [] t evs TInv.initial h

/-- A balanced event history forces both dictionaries to be empty. -/
lemma refs_nil_of_net_zero {t : RefTracker} {evs : List TEvent} (hinv : TInv t evs)
    (hz : ∀ r, ecount r evs = dcount r evs) : t.refs = [] ∧ t.objectRefs = [] := by
  have hz' : ∀ r, net evs r = 0 := by
    intro r; unfold net; rw [hz r]; ring
  constructor
  · cases hr : t.refs with
    | nil => rfl
    | cons p rest =>
      exfalso
      have hlook : alookup p.1 t.refs = some p.2 := by
        rw [hr, alookup_cons, if_pos rfl]
      have h1 := hinv.pos p.1 p.2 hlook
      have h2 := hinv.counts p.1
      rw [countOf_lookup_some hlook, hz' p.1] at h2
      omega
  · cases hr : t.objectRefs with
    | nil => rfl
    | cons p rest =>
      exfalso
      have hlook : alookup p.1 t.objectRefs = some p.2 := by
        rw [hr, alookup_cons, if_pos rfl]
      obtain ⟨e, he, _⟩ := hinv.corr2 p.1 p.2 hlook
      have h1 := hinv.pos _ _ he
      have h2 := hinv.counts p.2
      rw [countOf_lookup_some he, hz' p.2] at h2
      omega

/-- On a reachable state, DecRefnum drops an entry from both dictionaries
exactly when its count was one. -/
lemma dec_removes_iff {t : RefTracker} {evs : List TEvent} (hinv : TInv t evs)
    {r : Int} {e : Ref} (he : alookup r t.refs = some e) :
    (alookup r (t.decRefnum r).refs = none ∧
     alookup e.value (t.decRefnum r).objectRefs = none) ↔ e.count = 1 := by
  have hr42 := (hinv.range r e he).1
  have hg : ¬(r ≤ 0 ∨ r = NullRefNum) := by
    simp only [RefOffset] at hr42
    simp only [NullRefNum]
    omega
  have hpos := hinv.pos r e he
  constructor
  · intro hremoved
    by_contra hne
    have hz : ¬(e.count ≤ 1) := by omega
    have h1 := hremoved.1
    rw [decRefnum_update hg he hz] at h1
    simp only [] at h1
    rw [alookup_aupdate_self r e.decCount t.refs e he] at h1
    cases h1
  · intro hc
    rw [decRefnum_remove hg he (by omega)]
    exact ⟨alookup_aerase_self r t.refs, alookup_aerase_self e.value t.objectRefs⟩

/-- Inc returns the refnum already interned for a live object, leaving the
interning intact. -/
lemma inc_stable {t : RefTracker} {v : Nat} {r : Int}
    (hv : alookup v t.objectRefs = some r) :
    ∀ r' t', t.inc (some v) = .ok (r', t') →
      r' = r ∧ alookup v t'.objectRefs = some r := by
  intro r' t' h
  simp only [RefTracker.inc, hv, RefTracker.incEntry] at h
  cases he : alookup r t.refs with
  | none =>
    simp only [he] at h
    simp only [Except.ok.injEq, Prod.mk.injEq] at h
    obtain ⟨h1, h2⟩ := h
    subst h2
    exact ⟨h1.symm, hv⟩
  | some e =>
    simp only [he] at h
    cases hinc : e.incCount with
    | error err =>
      simp only [hinc] at h
      simp at h
    | ok e' =>
      rw [hinc] at h
      simp only [Except.ok.injEq, Prod.mk.injEq] at h
      obtain ⟨h1, h2⟩ := h
      subst h2
      exact ⟨h1.symm, hv⟩

/-- C5: refcount conservation in the emitted RefTracker.  For every
successful operation sequence from the empty tracker: a balanced history
(each refnum's effective increments equal its decrements) leaves both
dictionaries empty; the stored count of every refnum equals its net of
increments minus decrements; DecRefnum drops an entry from both maps
exactly when its count falls to zero; and Inc on an interned live object
returns its existing refnum and preserves the interning. -/
theorem claim_C5_refcount_conservation (ops : List TOp) (t : RefTracker)
    (evs : List TEvent) (h : runOps ops = .ok (t, evs)) :
    ((∀ r, ecount r evs = dcount r evs) → t.refs = [] ∧ t.objectRefs = []) ∧
    (∀ r, countOf t r = net evs r) ∧
    (∀ r e, alookup r t.refs = some e →
      ((alookup r (t.decRefnum r).refs = none ∧
        alookup e.value (t.decRefnum r).objectRefs = none) ↔ e.count = 1)) ∧
    (∀ v r, alookup v t.objectRefs = some r →
      ∀ r' t', t.inc (some v) = .ok (r', t') →
        r' = r ∧ alookup v t'.objectRefs = some r) := by
  have hinv := runOps_inv h
  exact ⟨refs_nil_of_net_zero hinv, hinv.counts,
    fun r e he => dec_removes_iff hinv he,
    fun v r hv => inc_stable hv⟩

def opsExample : List TOp :=
  [.incObj (some 7), .incRefnum 42, .decRefnum 42, .decRefnum 42]

/-- C5 witness: a concrete balanced schedule (one Inc interning object 7
at refnum 42, one IncRefnum, two DecRefnum) runs successfully and leaves
both tracker dictionaries empty. -/
theorem claim_C5_witness :
    runOps opsExample =
      .ok (⟨43, [], []⟩, [.einc 42, .einc 42, .edec 42, .edec 42]) ∧
    (⟨43, [], []⟩ : RefTracker).refs = [] ∧
    (⟨43, [], []⟩ : RefTracker).objectRefs = [] := by
  refine ⟨rfl, ?_⟩
  exact (claim_C5_refcount_conservation opsExample ⟨43, [], []⟩
      [.einc 42, .einc 42, .edec 42, .edec 42] rfl).1
    (by intro r; simp [ecount, dcount])

/-- C9: the claim asserts that any unknown non-sentinel refnum passed to
IncRefnum throws.  The emitted IncRefnum silently ignores every
non-positive refnum: the untracked non-sentinel refnum -5 is returned
without error, refuting the claim. -/
theorem claim_C9_counterexample :
    RefTracker.initial.runOp (.incRefnum (-5)) = .ok (RefTracker.initial, []) := rfl

/-- C9 (amended): GetRef throws on every unknown non-sentinel refnum;
IncRefnum throws on an unknown positive non-sentinel refnum but silently
ignores non-positive refnums; allocation when the refnum counter has
reached int.MaxValue throws; incrementing an entry whose count is
int.MaxValue throws. -/
theorem claim_C9_runtime_invariant_errors (t : RefTracker) (r : Int) (v : Nat) (e : Ref) :
    (0 < r → r ≠ NullRefNum → alookup r t.refs = none →
        t.incRefnum r = .error .unknownRef) ∧
    (r ≤ 0 → t.incRefnum r = .ok t) ∧
    (r ≠ NullRefNum → alookup r t.refs = none → t.getRef r = .error .unknownRef) ∧
    (t.nextRefnum = intMaxValue → alookup v t.objectRefs = none →
        t.inc (some v) = .error .refnumOverflow) ∧
    (alookup r t.refs = some e → e.count = intMaxValue → 0 < r → r ≠ NullRefNum →
        t.incRefnum r = .error .countOverflow) := by
  refine ⟨?_, ?_, ?_, ?_, ?_⟩
  · intro hpos hns hnone
    unfold RefTracker.incRefnum
    rw [if_neg (by omega), hnone]
  · intro hle
    unfold RefTracker.incRefnum
    rw [if_pos (Or.inl hle)]
  · intro hns hnone
    unfold RefTracker.getRef
    rw [if_neg hns, hnone]
  · intro hmax hnone
    simp only [RefTracker.inc, hnone]
    rw [if_pos hmax]
  · intro he hcnt hpos hns
    unfold RefTracker.incRefnum
    rw [if_neg (by omega)]
    simp only [he, Ref.incCount]
    rw [if_pos hcnt]

def overflowTracker : RefTracker :=
  ⟨intMaxValue, [(50, ⟨3, intMaxValue⟩)], [(3, 50)]⟩

/-- C9 witness: the amended theorem applied at concrete states: an
unknown positive refnum makes IncRefnum and GetRef throw, a negative
refnum is ignored, and both overflow checks throw. -/
theorem claim_C9_witness :
    overflowTracker.incRefnum 99 = .error .unknownRef ∧
    overflowTracker.incRefnum (-5) = .ok overflowTracker ∧
    overflowTracker.getRef 99 = .error .unknownRef ∧
    overflowTracker.inc (some 4) = .error .refnumOverflow ∧
    overflowTracker.incRefnum 50 = .error .countOverflow := by
  have h := claim_C9_runtime_invariant_errors overflowTracker 99 4 ⟨3, intMaxValue⟩
  have h50 := claim_C9_runtime_invariant_errors overflowTracker 50 4 ⟨3, intMaxValue⟩
  refine ⟨h.1 (by decide) (by decide) (by decide), ?_, ?_, ?_, ?_⟩
  · exact (claim_C9_runtime_invariant_errors overflowTracker (-5) 4
      ⟨3, intMaxValue⟩).2.1 (by decide)
  · exact h.2.2.1 (by decide) (by decide)
  · exact h.2.2.2.1 (by decide) (by decide)
  · exact h50.2.2.2.2 (by decide) (by decide) (by decide) (by decide)

/-! ## Interface FromRefnum -/

inductive FromRefnumRes where
  | nullRes
  | freshProxy (refnum : Int)
  | trackedRes (obj : Nat)
  | throwRes (e : TrackerErr)
deriving DecidableEq, Repr

/-- Embedding of the FromRefnum method emitted for interface proxies by
genInterface (source): the sentinel yields null; a negative refnum wraps a
fresh proxy around the refnum; any other refnum is fetched from the
tracker via Seq.GetRef, which throws on an unknown refnum. -/
def interfaceFromRefnum (t : RefTracker) (refnum : Int) : FromRefnumRes :=
  if refnum = NullRefNum then .nullRes
  else if refnum < 0 then .freshProxy refnum
  else
    match t.getRef refnum with
    | .error e => .throwRes e
    | .ok none => .nullRes
    | .ok (some v) => .trackedRes v

/-- C1: the claim asserts that a negative refnum names a managed-side
object whose existing instance FromRefnum fetches from the tracker, that a
positive refnum names a Go-side object for which a fresh proxy is
allocated, and that the tracker allocates from RefOffset = 42 consistent
with that sign convention.  In the code the convention is reversed: on the
refnum -1 FromRefnum allocates a fresh proxy, and the tracker hands out
the positive refnum 42 to the first managed object. -/
theorem claim_C1_counterexample :
    interfaceFromRefnum RefTracker.initial (-1) = .freshProxy (-1) ∧
    RefTracker.initial.inc (some 7) =
      .ok (42, ⟨43, [(42, ⟨7, 1⟩)], [(7, 42)]⟩) ∧
    ((0 : Int) < 42) := by
  refine ⟨rfl, rfl, by decide⟩

/-- C1 (amended): the sign convention is the reverse of the claim.
FromRefnum returns null on the sentinel, allocates a fresh proxy for every
negative (Go-side) refnum, and returns the tracker-registered managed
instance for a tracked positive refnum; the managed-side tracker allocates
refnums from RefOffset = 42 upward, so every tracked refnum is positive. -/
theorem claim_C1_refnum_sign_convention :
    (∀ t : RefTracker, interfaceFromRefnum t NullRefNum = .nullRes) ∧
    (∀ (t : RefTracker) (r : Int), r < 0 → interfaceFromRefnum t r = .freshProxy r) ∧
    (∀ (t : RefTracker) (r : Int) (e : Ref), 0 ≤ r → r ≠ NullRefNum →
        alookup r t.refs = some e → interfaceFromRefnum t r = .trackedRes e.value) ∧
    RefOffset = 42 ∧
    (∀ (ops : List TOp) (t : RefTracker) (evs : List TEvent),
        runOps ops = .ok (t, evs) →
        ∀ (r : Int) (e : Ref), alookup r t.refs = some e → RefOffset ≤ r) := by
  refine ⟨?_, ?_, ?_, rfl, ?_⟩
  · intro t
    unfold interfaceFromRefnum
    rw [if_pos rfl]
  · intro t r hneg
    unfold interfaceFromRefnum
    rw [if_neg (by simp only [NullRefNum]; omega), if_pos hneg]
  · intro t r e h0 hns he
    unfold interfaceFromRefnum
    rw [if_neg hns, if_neg (by omega)]
    unfold RefTracker.getRef
    rw [if_neg hns, he]
  · intro ops t evs h r e he
    exact ((runOps_inv h).range r e he).1

/-- C1 witness: the amended theorem applied at concrete inputs: the
sentinel, the negative refnum -1, a tracker holding object 9 at refnum 42,
and the singleton run that interns one object. -/
theorem claim_C1_witness :
    interfaceFromRefnum RefTracker.initial NullRefNum = .nullRes ∧
    interfaceFromRefnum RefTracker.initial (-1) = .freshProxy (-1) ∧
    interfaceFromRefnum (⟨43, [(42, ⟨9, 1⟩)], [(9, 42)]⟩ : RefTracker) 42 =
      .trackedRes 9 ∧
    RefOffset ≤ 42 := by
  have h := claim_C1_refnum_sign_convention
  refine ⟨h.1 RefTracker.initial, h.2.1 RefTracker.initial (-1) (by decide), ?_, ?_⟩
  · exact h.2.2.1 (⟨43, [(42, ⟨9, 1⟩)], [(9, 42)]⟩ : RefTracker) 42 ⟨9, 1⟩
      (by decide) (by decide) (by decide)
  · exact h.2.2.2.2 [.incObj (some 9)] ⟨43, [(42, ⟨9, 1⟩)], [(9, 42)]⟩
      [.einc 42] rfl 42 ⟨9, 1⟩ (by decide)

/-! ## Emitted marshaling helpers: strings and byte slices

Embedding of the string and byte-slice helpers emitted by genSeqSupport
(source).  Native memory is a heap of blocks allocated by GoSeqAlloc;
pointer zero is IntPtr.Zero.  Nullable managed values (string, byte
arrays) are Options. -/

structure NString where
  ptr : Nat
  len : Int
deriving DecidableEq, Repr

structure NByteslice where
  ptr : Nat
  len : Int
deriving DecidableEq, Repr

structure Heap where
  nextPtr : Nat
  blocks : List (Nat × List UInt8)
deriving DecidableEq, Repr

def Heap.initial : Heap := ⟨1, []⟩

/-- GoSeqAlloc followed by Marshal.Copy: a fresh non-zero block holding
the given bytes. -/
def Heap.alloc (h : Heap) (bytes : List UInt8) : Nat × Heap :=
  (h.nextPtr, ⟨h.nextPtr + 1, (h.nextPtr, bytes) :: h.blocks⟩)

/-- Seq.Free: GoSeqFree on a non-zero pointer drops the block; IntPtr.Zero
is ignored. -/
def Heap.free (h : Heap) (p : Nat) : Heap :=
  if p = 0 then h else ⟨h.nextPtr, aerase p h.blocks⟩

def isNullOrEmpty : Option String → Bool
  | none => true
  | some s => s = ""

/-- Embedding of Seq.StringToNString (source): a null or empty string maps
to the zero wire struct; otherwise the UTF-8 bytes are copied into a fresh
Go-allocated buffer. -/
def StringToNString (value : Option String) (h : Heap) : NString × Heap :=
  if isNullOrEmpty value then (⟨0, 0⟩, h)
  else
    let bytes := ((value.getD "").toUTF8).toList
    let (p, h') := h.alloc bytes
    (⟨p, (bytes.length : Int)⟩, h')

/-- Marshal.PtrToStringUTF8 over the modelled heap: decode the block's
first len bytes as UTF-8; null when the pointer is unmapped or the bytes
are not valid UTF-8. -/
def ptrToStringUTF8 (h : Heap) (p : Nat) (len : Int) : Option String :=
  (alookup p h.blocks).bind fun bs =>
    String.fromUTF8? (ByteArray.mk (bs.take len.toNat).toArray)

/-- Embedding of Seq.NStringToString (source): a zero pointer or zero
length yields the empty string; otherwise the buffer is decoded, freed,
and a failed decode is coalesced to the empty string. -/
def NStringToString (value : NString) (h : Heap) : String × Heap :=
  if value.ptr = 0 ∨ value.len = 0 then ("", h)
  else
    let result := ptrToStringUTF8 h value.ptr value.len
    let h' := h.free value.ptr
    (result.getD "", h')

/-- Embedding of Seq.BytesToNByteslice (source): a null or zero-length
array maps to the zero wire struct; otherwise the bytes are copied into a
fresh Go-allocated buffer. -/
def BytesToNByteslice (value : Option (List UInt8)) (h : Heap) : NByteslice × Heap :=
  match value with
  | none => (⟨0, 0⟩, h)
  | some bs =>
    if bs.length = 0 then (⟨0, 0⟩, h)
    else
      let (p, h') := h.alloc bs
      (⟨p, (bs.length : Int)⟩, h')

/-- Embedding of Seq.NBytesliceToBytes (source): a zero pointer or zero
length yields the empty array (never null); otherwise len bytes are
copied out and the buffer freed exactly when the free flag is set. -/
def NBytesliceToBytes (value : NByteslice) (freeBuf : Bool) (h : Heap) :
    List UInt8 × Heap :=
  if value.ptr = 0 ∨ value.len = 0 then ([], h)
  else
    let result := ((alookup value.ptr h.blocks).getD []).take value.len.toNat
    (result, if freeBuf then h.free value.ptr else h)

/-- C10: null/empty normalization in the emitted marshaling helpers.
BytesToNByteslice maps null and empty arrays to the zero wire struct;
NBytesliceToBytes maps a zero pointer or zero length to the empty array,
never null; StringToNString maps null and empty strings to the zero wire
struct; NStringToString maps such wire values back to the empty string;
consequently a null string or null byte array round-trips to the empty
string or empty array. -/
theorem claim_C10_null_empty_marshaling (h : Heap) (p : Nat) (n : Int) (b : Bool) :
    (StringToNString none h = (⟨0, 0⟩, h) ∧
     StringToNString (some "") h = (⟨0, 0⟩, h)) ∧
    ((p = 0 ∨ n = 0) → NStringToString ⟨p, n⟩ h = ("", h)) ∧
    (BytesToNByteslice none h = (⟨0, 0⟩, h) ∧
     BytesToNByteslice (some []) h = (⟨0, 0⟩, h)) ∧
    ((p = 0 ∨ n = 0) → NBytesliceToBytes ⟨p, n⟩ b h = ([], h)) ∧
    (∀ v : Option String, (v = none ∨ v = some "") →
      (NStringToString (StringToNString v h).1 (StringToNString v h).2).1 = "") ∧
    (∀ v : Option (List UInt8), (v = none ∨ v = some []) →
      (NBytesliceToBytes (BytesToNByteslice v h).1 b (BytesToNByteslice v h).2).1 = []) := by
  refine ⟨⟨rfl, rfl⟩, ?_, ⟨rfl, rfl⟩, ?_, ?_, ?_⟩
  · intro hz
    unfold NStringToString
    rw [if_pos hz]
  · intro hz
    unfold NBytesliceToBytes
    rw [if_pos hz]
  · intro v hv
    rcases hv with hv | hv <;> rw [hv] <;> rfl
  · intro v hv
    rcases hv with hv | hv <;> rw [hv] <;> rfl

/-- C10 witness: the null and zero branches of the helpers evaluated at a
concrete heap and a concrete nonzero pointer with zero length. -/
theorem claim_C10_witness :
    NStringToString ⟨7, 0⟩ Heap.initial = ("", Heap.initial) ∧
    NBytesliceToBytes ⟨7, 0⟩ true Heap.initial = ([], Heap.initial) ∧
    (NStringToString (StringToNString none Heap.initial).1
        (StringToNString none Heap.initial).2).1 = "" := by
  have h := claim_C10_null_empty_marshaling Heap.initial 7 0 true
  exact ⟨h.2.1 (Or.inr rfl), h.2.2.2.1 (Or.inr rfl), h.2.2.2.2.1 none (Or.inl rfl)⟩

/-! ## Emitted wrapper bodies

Statement-level embedding of the C# wrapper bodies the generator prints:
one constructor per emitted statement, in the order the source emits them.
The conditional refnum-error cleanup block, emitted as an if over res.r1
with exactly two statements inside, is one constructor carrying them. -/

inductive RetShape where
  | void
  | single (t : Ty)
  | errorOnly
  | valueAndError (t : Ty)
deriving DecidableEq, Repr

/-- Result-shape analysis shared by emitPackageFunctions, genStructClass
and genInterface (source): zero results, one result (error or not), or a
value with a trailing error; more results, or a second result that is not
error, is rejected with a diagnostic and no wrapper is emitted. -/
def retShape : List Ty → Option RetShape
  | [] => some .void
  | [t] => if isErrorType t then some .errorOnly else some (.single t)
  | [t, e] => if isErrorType e then some (.valueAndError t) else none
  | _ => none

inductive Stmt where
  | throwIfDisposed
  | throwIfPendingException
  | incGoRef
  | toNativeParam (i : Nat)
  | callNative
  | freeNativeParam (i : Nat)
  | returnFromNative
  | throwIfErrorRes
  | destroyRefR0
  | throwIfErrorR1
  | fromNativeR0
  | returnValue
  | setRefnumR0
  | setRefnumRes
  | destroyRefField
  | ifErrNotNull (s1 s2 : Stmt)
deriving DecidableEq, Repr

/-- The emitToNativeParam statements for the parameter list, one per
parameter in order. -/
def marshalStmts (params : List Ty) : List Stmt :=
  (List.range params.length).map Stmt.toNativeParam

/-- The emitFreeNativeParam statements after the call: one per transient
byte-slice parameter, in order (shouldFreeAfterCall, source). -/
def freeStmts (params : List Ty) : List Stmt :=
  params.enum.filterMap fun pi =>
    if shouldFreeAfterCall pi.2 false then some (Stmt.freeNativeParam pi.1) else none

/-- The result handling emitted identically at the three call sites
(emitPackageFunctions, genStructClass methods, genInterface proxy
methods): for a refnum-valued result paired with an error, an if over the
error refnum destroys the value refnum and throws, in that order. -/
def callEpilogue : RetShape → List Stmt
  | .void => []
  | .single _ => [.returnFromNative]
  | .errorOnly => [.throwIfErrorRes]
  | .valueAndError t =>
    if isRefnumType t then
      [.ifErrNotNull .destroyRefR0 .throwIfErrorR1, .fromNativeR0, .returnValue]
    else
      [.fromNativeR0, .throwIfErrorR1, .returnValue]

/-- Body of an emitted package-function wrapper (emitPackageFunctions,
source): marshal the arguments, call the native entry, free the transient
byte-slice buffers, then handle the result.  No disposal check and no
pending-exception drain is emitted. -/
def packageFunctionBody (params res : List Ty) : Option (List Stmt) :=
  (retShape res).map fun shape =>
    marshalStmts params ++ [.callNative] ++ freeStmts params ++ callEpilogue shape

/-- Body of an emitted struct method (genStructClass, source): the
disposal check and the pending-exception drain come first, then IncGoRef,
the marshaling, the native call, the frees and the result handling. -/
def structMethodBody (params res : List Ty) : Option (List Stmt) :=
  (retShape res).map fun shape =>
    [.throwIfDisposed, .throwIfPendingException, .incGoRef] ++
      marshalStmts params ++ [.callNative] ++ freeStmts params ++ callEpilogue shape

/-- Body of an emitted interface proxy method (genInterface, source): the
same leading disposal check and drain, then the identical call sequence. -/
def interfaceMethodBody (params res : List Ty) : Option (List Stmt) :=
  (retShape res).map fun shape =>
    [.throwIfDisposed, .throwIfPendingException, .incGoRef] ++
      marshalStmts params ++ [.callNative] ++ freeStmts params ++ callEpilogue shape

/-- Body of an emitted struct field getter (genStructClass, source). -/
def fieldGetterBody : List Stmt :=
  [.throwIfDisposed, .throwIfPendingException, .incGoRef, .callNative, .returnFromNative]

/-- Body of an emitted struct field setter (genStructClass, source). -/
def fieldSetterBody : List Stmt :=
  [.throwIfDisposed, .throwIfPendingException, .incGoRef, .toNativeParam 0, .callNative]

/-- Body of an emitted package variable getter (emitPackageVariables,
source): no disposal check and no pending-exception drain. -/
def packageVarGetterBody : List Stmt := [.callNative, .returnFromNative]

/-- Body of an emitted package variable setter (emitPackageVariables,
source). -/
def packageVarSetterBody : List Stmt := [.toNativeParam 0, .callNative]

/-- Body of an emitted public constructor (genConstructorFromFunc,
source): for the error-returning form, the refnum field is set from
res.r0 and the error path destroys that refnum before throwing. -/
def constructorBody (params : List Ty) (returnsError : Bool) : List Stmt :=
  marshalStmts params ++ [.callNative] ++ freeStmts params ++
    (if returnsError then
      [.setRefnumR0, .ifErrNotNull .destroyRefField .throwIfErrorR1]
    else [.setRefnumRes])

/-! ### Runtime semantics of wrapper bodies -/

inductive WEvent where
  | marshalParam (i : Nat)
  | nativeCall
  | freeParam (i : Nat)
  | incGoRefEv
  | destroyRef (r : Int)
  | threwGo (r : Int)
  | threwPending (e : Nat)
  | threwDisposed
  | returned
deriving DecidableEq, Repr

/-- State of one wrapper execution: the pending-exception queue, the
disposal flag of the receiver, the two wire results of the native call
(r0 the value refnum, r1 the error refnum; for an error-only result the
refnum lives in r1), the proxy refnum field set by constructors, the event
trace, and whether an exception is in flight. -/
structure WState where
  pending : List Nat
  disposed : Bool
  r0 : Int
  r1 : Int
  refnumField : Int
  events : List WEvent
  thrown : Bool
deriving DecidableEq, Repr

def initialWState (r0 r1 : Int) : WState := ⟨[], false, r0, r1, 0, [], false⟩

def execStmt (st : WState) : Stmt → WState
  | .throwIfDisposed =>
    if st.thrown then st
    else if st.disposed then
      { st with thrown := true, events := st.events ++ [.threwDisposed] }
    else st
  | .throwIfPendingException =>
    if st.thrown then st
    else
      match st.pending with
      | [] => st
      | e :: rest =>
        { st with pending := rest, thrown := true,
                  events := st.events ++ [.threwPending e] }
  | .incGoRef =>
    if st.thrown then st else { st with events := st.events ++ [.incGoRefEv] }
  | .toNativeParam i =>
    if st.thrown then st else { st with events := st.events ++ [.marshalParam i] }
  | .callNative =>
    if st.thrown then st else { st with events := st.events ++ [.nativeCall] }
  | .freeNativeParam i =>
    if st.thrown then st else { st with events := st.events ++ [.freeParam i] }
  | .returnFromNative =>
    if st.thrown then st else { st with events := st.events ++ [.returned] }
  | .throwIfErrorRes =>
    if st.thrown then st
    else if st.r1 ≠ NullRefNum then
      { st with thrown := true, events := st.events ++ [.threwGo st.r1] }
    else st
  | .destroyRefR0 =>
    if st.thrown then st else { st with events := st.events ++ [.destroyRef st.r0] }
  | .throwIfErrorR1 =>
    if st.thrown then st
    else if st.r1 ≠ NullRefNum then
      { st with thrown := true, events := st.events ++ [.threwGo st.r1] }
    else st
  | .fromNativeR0 => st
  | .returnValue =>
    if st.thrown then st else { st with events := st.events ++ [.returned] }
  | .setRefnumR0 =>
    if st.thrown then st else { st with refnumField := st.r0 }
  | .setRefnumRes =>
    if st.thrown then st else { st with refnumField := st.r0 }
  | .destroyRefField =>
    if st.thrown then st
    else { st with events := st.events ++ [.destroyRef st.refnumField] }
  | .ifErrNotNull s1 s2 =>
    if st.thrown then st
    else if st.r1 ≠ NullRefNum then execStmt (execStmt st s1) s2
    else st

def execStmts (st : WState) : List Stmt → WState
  | [] => st
  | s :: rest => execStmts (execStmt st s) rest

lemma execStmts_append (st : WState) (a b : List Stmt) :
    execStmts st (a ++ b) = execStmts (execStmts st a) b := by
  induction a generalizing st with
  | nil => rfl
  | cons s rest ih =>
    simp only [List.cons_append, execStmts]
    exact ih (execStmt st s)

lemma execStmt_thrown {st : WState} (h : st.thrown = true) (s : Stmt) :
    execStmt st s = st := by
  cases s <;> simp [execStmt, h]

lemma execStmts_thrown {st : WState} (h : st.thrown = true) (l : List Stmt) :
    execStmts st l = st := by
  induction l with
  | nil => rfl
  | cons s rest ih => simp only [execStmts, execStmt_thrown h, ih]

/-- The statements between the drain and the result handling: each
appends one event and touches nothing else. -/
def benignStmt : Stmt → Bool
  | .toNativeParam _ => true
  | .callNative => true
  | .freeNativeParam _ => true
  | .incGoRef => true
  | _ => false

def benignEvent : Stmt → WEvent
  | .toNativeParam i => .marshalParam i
  | .callNative => .nativeCall
  | .freeNativeParam i => .freeParam i
  | _ => .incGoRefEv

lemma execStmt_benign {st : WState} {s : Stmt} (hb : benignStmt s = true)
    (hth : st.thrown = false) :
    execStmt st s = { st with events := st.events ++ [benignEvent s] } := by
  cases s <;> simp_all [benignStmt, benignEvent, execStmt]

lemma execStmts_benign {l : List Stmt} (hb : l.all benignStmt = true) :
    ∀ st : WState, st.thrown = false →
      execStmts st l = { st with events := st.events ++ l.map benignEvent } := by
  induction l with
  | nil =>
    intro st hth
    simp [execStmts]
  | cons s rest ih =>
    intro st hth
    simp only [List.all_cons, Bool.and_eq_true] at hb
    simp only [execStmts, List.map_cons]
    rw [execStmt_benign hb.1 hth,
      ih hb.2 { st with events := st.events ++ [benignEvent s] } hth]
    simp

lemma marshalStmts_benign (params : List Ty) :
    (marshalStmts params).all benignStmt = true := by
  unfold marshalStmts
  rw [List.all_eq_true]
  intro s hs
  obtain ⟨i, _, hi⟩ := List.mem_map.mp hs
  rw [← hi]
  rfl

lemma freeStmts_benign (params : List Ty) :
    (freeStmts params).all benignStmt = true := by
  unfold freeStmts
  rw [List.all_eq_true]
  intro s hs
  obtain ⟨pi, _, hpi⟩ := List.mem_filterMap.mp hs
  by_cases hfree : shouldFreeAfterCall pi.2 false
  · rw [if_pos hfree] at hpi
    cases hpi
    rfl
  · rw [if_neg hfree] at hpi
    cases hpi

lemma callSeq_benign (params : List Ty) :
    (marshalStmts params ++ [Stmt.callNative] ++ freeStmts params).all benignStmt = true := by
  rw [List.all_append, List.all_append]
  simp [marshalStmts_benign, freeStmts_benign, benignStmt]

/-- Statements that never touch the pending-exception queue: everything
except the drain itself (recursively through the conditional block). -/
def pendingFree : Stmt → Bool
  | .throwIfPendingException => false
  | .ifErrNotNull s1 s2 => pendingFree s1 && pendingFree s2
  | _ => true

lemma execStmt_pending {s : Stmt} (hp : pendingFree s = true) :
    ∀ st : WState, (execStmt st s).pending = st.pending := by
  induction s with
  | throwIfPendingException => exact absurd hp (by simp [pendingFree])
  | ifErrNotNull s1 s2 ih1 ih2 =>
    intro st
    simp only [pendingFree, Bool.and_eq_true] at hp
    by_cases hth : st.thrown
    · simp [execStmt, hth]
    · simp only [execStmt, hth, Bool.false_eq_true, if_false]
      by_cases hr : st.r1 ≠ NullRefNum
      · rw [if_pos hr, ih2 hp.2, ih1 hp.1]
      · rw [if_neg hr]
  | throwIfDisposed =>
    intro st
    by_cases hth : st.thrown <;> by_cases hd : st.disposed <;> simp [execStmt, hth, hd]
  | throwIfErrorRes =>
    intro st
    by_cases hth : st.thrown <;> by_cases hr : st.r1 ≠ NullRefNum <;>
      simp [execStmt, hth, hr]
  | throwIfErrorR1 =>
    intro st
    by_cases hth : st.thrown <;> by_cases hr : st.r1 ≠ NullRefNum <;>
      simp [execStmt, hth, hr]
  | fromNativeR0 => intro st; rfl
  | incGoRef => intro st; by_cases hth : st.thrown <;> simp [execStmt, hth]
  | toNativeParam i => intro st; by_cases hth : st.thrown <;> simp [execStmt, hth]
  | callNative => intro st; by_cases hth : st.thrown <;> simp [execStmt, hth]
  | freeNativeParam i => intro st; by_cases hth : st.thrown <;> simp [execStmt, hth]
  | returnFromNative => intro st; by_cases hth : st.thrown <;> simp [execStmt, hth]
  | destroyRefR0 => intro st; by_cases hth : st.thrown <;> simp [execStmt, hth]
  | returnValue => intro st; by_cases hth : st.thrown <;> simp [execStmt, hth]
  | setRefnumR0 => intro st; by_cases hth : st.thrown <;> simp [execStmt, hth]
  | setRefnumRes => intro st; by_cases hth : st.thrown <;> simp [execStmt, hth]
  | destroyRefField => intro st; by_cases hth : st.thrown <;> simp [execStmt, hth]

lemma execStmts_pending {l : List Stmt} (hp : l.all pendingFree = true) :
    ∀ st : WState, (execStmts st l).pending = st.pending := by
  induction l with
  | nil => intro st; rfl
  | cons s rest ih =>
    intro st
    simp only [List.all_cons, Bool.and_eq_true] at hp
    simp only [execStmts]
    rw [ih hp.2, execStmt_pending hp.1]

lemma marshalStmts_pendingFree (params : List Ty) :
    (marshalStmts params).all pendingFree = true := by
  unfold marshalStmts
  rw [List.all_eq_true]
  intro s hs
  obtain ⟨i, _, hi⟩ := List.mem_map.mp hs
  rw [← hi]
  rfl

lemma freeStmts_pendingFree (params : List Ty) :
    (freeStmts params).all pendingFree = true := by
  unfold freeStmts
  rw [List.all_eq_true]
  intro s hs
  obtain ⟨pi, _, hpi⟩ := List.mem_filterMap.mp hs
  by_cases hfree : shouldFreeAfterCall pi.2 false
  · rw [if_pos hfree] at hpi
    cases hpi
    rfl
  · rw [if_neg hfree] at hpi
    cases hpi

lemma callEpilogue_pendingFree (shape : RetShape) :
    (callEpilogue shape).all pendingFree = true := by
  cases shape with
  | void => rfl
  | single t => rfl
  | errorOnly => rfl
  | valueAndError t =>
    simp only [callEpilogue]
    by_cases hrt : isRefnumType t
    · rw [if_pos hrt]; decide
    · rw [if_neg hrt]; decide

lemma packageFunctionBody_pendingFree {params res : List Ty} {stmts : List Stmt}
    (h : packageFunctionBody params res = some stmts) :
    stmts.all pendingFree = true := by
  obtain ⟨shape, hsh, hst⟩ := Option.map_eq_some'.mp h
  rw [← hst]
  simp only [List.all_append]
  simp [marshalStmts_pendingFree, freeStmts_pendingFree, callEpilogue_pendingFree,
    pendingFree]

lemma method_prefix_throws (e : Nat) (q : List Nat) (r0 r1 : Int) (rest : List Stmt) :
    execStmts ⟨e :: q, false, r0, r1, 0, [], false⟩
        (Stmt.throwIfDisposed :: Stmt.throwIfPendingException :: Stmt.incGoRef :: rest) =
      ⟨q, false, r0, r1, 0, [.threwPending e], true⟩ := by
  show execStmts (execStmt (execStmt (execStmt
      ⟨e :: q, false, r0, r1, 0, [], false⟩ .throwIfDisposed)
      .throwIfPendingException) .incGoRef) rest = _
  have h3 : execStmt (execStmt (execStmt
      (⟨e :: q, false, r0, r1, 0, [], false⟩ : WState) .throwIfDisposed)
      .throwIfPendingException) .incGoRef =
      ⟨q, false, r0, r1, 0, [.threwPending e], true⟩ := rfl
  rw [h3]
  exact execStmts_thrown rfl rest

/-- C2: the claim asserts that every boundary crossing, including package
function calls, drains one pending callback exception before doing its
work.  The wrapper emitted for a parameterless void package function is
the bare native call: run with a queued exception it performs the call and
leaves the queue untouched, refuting the claim. -/
theorem claim_C2_counterexample :
    packageFunctionBody [] [] = some [Stmt.callNative] ∧
    execStmts ⟨[5], false, 0, 41, 0, [], false⟩ [Stmt.callNative] =
      ⟨[5], false, 0, 41, 0, [WEvent.nativeCall], false⟩ :=
  ⟨rfl, rfl⟩

/-- C2 (amended): ThrowIfPendingException dequeues at most one entry and
throws exactly when one was present; struct methods, interface proxy
methods and struct field accessors drain it before any other work, so with
a non-empty queue they throw the dequeued exception and never reach the
native call; package function wrappers and package variable accessors
contain no drain and leave the queue untouched. -/
theorem claim_C2_pending_exception_draining (params res : List Ty)
    (stmts stmts2 : List Stmt) (e : Nat) (q : List Nat) (r0 r1 : Int) :
    (∀ st : WState, st.thrown = false → st.pending = e :: q →
        execStmt st .throwIfPendingException =
          { st with pending := q, thrown := true,
                    events := st.events ++ [.threwPending e] }) ∧
    (∀ st : WState, st.thrown = false → st.pending = [] →
        execStmt st .throwIfPendingException = st) ∧
    (structMethodBody params res = some stmts →
        execStmts ⟨e :: q, false, r0, r1, 0, [], false⟩ stmts =
          ⟨q, false, r0, r1, 0, [.threwPending e], true⟩) ∧
    (interfaceMethodBody params res = some stmts →
        execStmts ⟨e :: q, false, r0, r1, 0, [], false⟩ stmts =
          ⟨q, false, r0, r1, 0, [.threwPending e], true⟩) ∧
    (execStmts ⟨e :: q, false, r0, r1, 0, [], false⟩ fieldGetterBody =
        ⟨q, false, r0, r1, 0, [.threwPending e], true⟩) ∧
    (execStmts ⟨e :: q, false, r0, r1, 0, [], false⟩ fieldSetterBody =
        ⟨q, false, r0, r1, 0, [.threwPending e], true⟩) ∧
    (packageFunctionBody params res = some stmts2 →
        ∀ st : WState, (execStmts st stmts2).pending = st.pending) ∧
    (∀ st : WState, (execStmts st packageVarGetterBody).pending = st.pending) ∧
    (∀ st : WState, (execStmts st packageVarSetterBody).pending = st.pending) := by
  refine ⟨?_, ?_, ?_, ?_, ?_, ?_, ?_, ?_, ?_⟩
  · intro st hth hp
    simp [execStmt, hth, hp]
  · intro st hth hp
    simp [execStmt, hth, hp]
  · intro hb
    obtain ⟨shape, hsh, hst⟩ := Option.map_eq_some'.mp hb
    rw [← hst]
    exact method_prefix_throws e q r0 r1 _
  · intro hb
    obtain ⟨shape, hsh, hst⟩ := Option.map_eq_some'.mp hb
    rw [← hst]
    exact method_prefix_throws e q r0 r1 _
  · exact method_prefix_throws e q r0 r1 _
  · exact method_prefix_throws e q r0 r1 _
  · intro hb
    exact execStmts_pending (packageFunctionBody_pendingFree hb)
  · exact execStmts_pending (by decide)
  · exact execStmts_pending (by decide)

/-- C2 witness: the amended theorem applied at a concrete struct method
(no parameters, no results) with a concrete queued exception, and at the
concrete parameterless package function wrapper. -/
theorem claim_C2_witness :
    structMethodBody [] [] = some [Stmt.throwIfDisposed, Stmt.throwIfPendingException,
      Stmt.incGoRef, Stmt.callNative] ∧
    execStmts ⟨[7], false, 0, 41, 0, [], false⟩
        [Stmt.throwIfDisposed, Stmt.throwIfPendingException, Stmt.incGoRef,
          Stmt.callNative] =
      ⟨[], false, 0, 41, 0, [.threwPending 7], true⟩ ∧
    (execStmts ⟨[7], false, 0, 41, 0, [], false⟩ [Stmt.callNative]).pending = [7] := by
  refine ⟨rfl, ?_, ?_⟩
  · exact (claim_C2_pending_exception_draining [] [] [Stmt.throwIfDisposed,
      Stmt.throwIfPendingException, Stmt.incGoRef, Stmt.callNative] [] 7 [] 0 41).2.2.1 rfl
  · exact (claim_C2_pending_exception_draining [] [] [] [Stmt.callNative] 7 [] 0
      41).2.2.2.2.2.2.1 rfl ⟨[7], false, 0, 41, 0, [], false⟩

lemma epilogue_error_run (st : WState) (hth : st.thrown = false)
    (hr1 : st.r1 ≠ NullRefNum) :
    execStmts st [Stmt.ifErrNotNull Stmt.destroyRefR0 Stmt.throwIfErrorR1,
        Stmt.fromNativeR0, Stmt.returnValue] =
      { st with thrown := true,
                events := st.events ++ [.destroyRef st.r0, .threwGo st.r1] } := by
  have hd : execStmt st Stmt.destroyRefR0 =
      { st with events := st.events ++ [.destroyRef st.r0] } := by
    simp [execStmt, hth]
  have h1 : execStmt st (Stmt.ifErrNotNull Stmt.destroyRefR0 Stmt.throwIfErrorR1) =
      { st with thrown := true,
                events := st.events ++ [.destroyRef st.r0, .threwGo st.r1] } := by
    simp only [execStmt, hth, Bool.false_eq_true, if_false, if_pos hr1, hd]
    simp [execStmt, hth, hr1]
  show execStmts (execStmt st (Stmt.ifErrNotNull Stmt.destroyRefR0 Stmt.throwIfErrorR1))
      [Stmt.fromNativeR0, Stmt.returnValue] = _
  rw [h1]
  exact execStmts_thrown rfl _

lemma ctor_epilogue_error_run (st : WState) (hth : st.thrown = false)
    (hr1 : st.r1 ≠ NullRefNum) :
    execStmts st [Stmt.setRefnumR0,
        Stmt.ifErrNotNull Stmt.destroyRefField Stmt.throwIfErrorR1] =
      { st with refnumField := st.r0, thrown := true,
                events := st.events ++ [.destroyRef st.r0, .threwGo st.r1] } := by
  have hset : execStmt st Stmt.setRefnumR0 = { st with refnumField := st.r0 } := by
    simp [execStmt, hth]
  show execStmts (execStmt st Stmt.setRefnumR0) [_] = _
  rw [hset]
  show execStmt { st with refnumField := st.r0 }
      (Stmt.ifErrNotNull Stmt.destroyRefField Stmt.throwIfErrorR1) = _
  simp only [execStmt, hth, Bool.false_eq_true, if_false, if_pos hr1]
  simp [execStmt, hth, hr1]

/-- With the error refnum set, the shared call sequence followed by the
refnum-error epilogue destroys the value refnum and then throws. -/
lemma run_body_error (params : List Ty) (t : Ty) (st : WState)
    (hth : st.thrown = false) (hr1 : st.r1 ≠ NullRefNum)
    (hrt : isRefnumType t = true) :
    execStmts st (marshalStmts params ++ [Stmt.callNative] ++ freeStmts params ++
        callEpilogue (.valueAndError t)) =
      { st with thrown := true,
                events := (st.events ++ (marshalStmts params ++ [Stmt.callNative] ++
                  freeStmts params).map benignEvent) ++
                    [.destroyRef st.r0, .threwGo st.r1] } := by
  rw [execStmts_append, execStmts_benign (callSeq_benign params) st hth]
  simp only [callEpilogue]
  rw [if_pos hrt]
  exact epilogue_error_run _ hth hr1

/-- C4: refnum-error cleanup.  In every emitted wrapper whose result shape
is a refnum-represented value paired with an error (package function,
struct method, interface proxy method, public constructor), a non-sentinel
error refnum makes the wrapper destroy the value refnum and then throw:
the trace ends with DestroyRef of r0 immediately followed by the throw. -/
theorem claim_C4_refnum_error_cleanup (params res : List Ty) (t : Ty)
    (stmts : List Stmt) (r0 r1 : Int)
    (hshape : retShape res = some (.valueAndError t))
    (hrt : isRefnumType t = true) (hr1 : r1 ≠ NullRefNum)
    (hbody : packageFunctionBody params res = some stmts ∨
             structMethodBody params res = some stmts ∨
             interfaceMethodBody params res = some stmts ∨
             stmts = constructorBody params true) :
    ∃ pre, (execStmts (initialWState r0 r1) stmts).events =
        pre ++ [.destroyRef r0, .threwGo r1] ∧
      (execStmts (initialWState r0 r1) stmts).thrown = true := by
  rcases hbody with hb | hb | hb | hb
  · obtain ⟨shape, hsh, hst⟩ := Option.map_eq_some'.mp hb
    rw [hshape] at hsh
    cases hsh
    rw [← hst]
    rw [run_body_error params t (initialWState r0 r1) rfl hr1 hrt]
    exact ⟨(marshalStmts params ++ [Stmt.callNative] ++
      freeStmts params).map benignEvent, by simp [initialWState], rfl⟩
  · obtain ⟨shape, hsh, hst⟩ := Option.map_eq_some'.mp hb
    rw [hshape] at hsh
    cases hsh
    rw [← hst]
    have hstep : execStmts (initialWState r0 r1)
        ([Stmt.throwIfDisposed, Stmt.throwIfPendingException, Stmt.incGoRef] ++
          marshalStmts params ++ [Stmt.callNative] ++ freeStmts params ++
          callEpilogue (.valueAndError t)) =
        execStmts ⟨[], false, r0, r1, 0, [WEvent.incGoRefEv], false⟩
          (marshalStmts params ++ [Stmt.callNative] ++ freeStmts params ++
            callEpilogue (.valueAndError t)) := rfl
    rw [hstep, run_body_error params t _ rfl hr1 hrt]
    exact ⟨WEvent.incGoRefEv :: (marshalStmts params ++ [Stmt.callNative] ++
      freeStmts params).map benignEvent, by simp, rfl⟩
  · obtain ⟨shape, hsh, hst⟩ := Option.map_eq_some'.mp hb
    rw [hshape] at hsh
    cases hsh
    rw [← hst]
    have hstep : execStmts (initialWState r0 r1)
        ([Stmt.throwIfDisposed, Stmt.throwIfPendingException, Stmt.incGoRef] ++
          marshalStmts params ++ [Stmt.callNative] ++ freeStmts params ++
          callEpilogue (.valueAndError t)) =
        execStmts ⟨[], false, r0, r1, 0, [WEvent.incGoRefEv], false⟩
          (marshalStmts params ++ [Stmt.callNative] ++ freeStmts params ++
            callEpilogue (.valueAndError t)) := rfl
    rw [hstep, run_body_error params t _ rfl hr1 hrt]
    exact ⟨WEvent.incGoRefEv :: (marshalStmts params ++ [Stmt.callNative] ++
      freeStmts params).map benignEvent, by simp, rfl⟩
  · rw [hb]
    unfold constructorBody
    rw [if_pos rfl]
    rw [execStmts_append, execStmts_benign (callSeq_benign params) _ rfl]
    rw [ctor_epilogue_error_run _ rfl hr1]
    exact ⟨(marshalStmts params ++ [Stmt.callNative] ++
      freeStmts params).map benignEvent, by simp [initialWState], rfl⟩

/-- C4 witness: the theorem applied to the concrete parameterless package
function returning a refnum-represented value and an error, with value
refnum 100 and error refnum 50. -/
theorem claim_C4_witness :
    retShape [Ty.named .structKind 0 "S", Ty.errorTy] =
      some (.valueAndError (Ty.named .structKind 0 "S")) ∧
    (∃ pre, (execStmts (initialWState 100 50)
        [Stmt.callNative, Stmt.ifErrNotNull Stmt.destroyRefR0 Stmt.throwIfErrorR1,
          Stmt.fromNativeR0, Stmt.returnValue]).events =
          pre ++ [.destroyRef 100, .threwGo 50] ∧
      (execStmts (initialWState 100 50)
        [Stmt.callNative, Stmt.ifErrNotNull Stmt.destroyRefR0 Stmt.throwIfErrorR1,
          Stmt.fromNativeR0, Stmt.returnValue]).thrown = true) := by
  refine ⟨rfl, ?_⟩
  exact claim_C4_refnum_error_cleanup [] [Ty.named .structKind 0 "S", Ty.errorTy]
    (Ty.named .structKind 0 "S")
    [Stmt.callNative, Stmt.ifErrNotNull Stmt.destroyRefR0 Stmt.throwIfErrorR1,
      Stmt.fromNativeR0, Stmt.returnValue]
    100 50 rfl rfl (by decide) (Or.inl rfl)

/-! ## Callback trampolines

Embedding of the trampoline bodies emitted by genInterface (source) and of
ReportUnhandledException from genSeqSupport.  The managed exception of a
callback is an identifier; the GoError wrapping it is a fresh plain
object, interned in the tracker by Seq.IncRef. -/

inductive MObj where
  | mplain (id : Nat)
  | mproxyObj (refnum : Int) (disposed : Bool)
deriving DecidableEq, Repr

inductive MVal where
  | vbool (b : Bool)
  | vnum (n : Int)
  | vstr (s : Option String)
  | vbytes (b : Option (List UInt8))
  | vobj (o : Option MObj)
deriving DecidableEq, Repr

inductive WireVal where
  | wnum (n : Int)
  | wstr (s : NString)
  | wbytes (b : NByteslice)
  | wref (r : Int)
deriving DecidableEq, Repr

structure SeqState where
  tracker : RefTracker
  heap : Heap
  pending : List (Nat × String)
  hookSet : Bool
  failFast : Bool
  hookCalls : List (Nat × String)
  failFasted : Bool
  nextObj : Nat
deriving DecidableEq, Repr

def seqInitial : SeqState :=
  ⟨RefTracker.initial, Heap.initial, [], false, false, [], false, 0⟩

inductive IncRefErr where
  | objectDisposed
  | trackerFault (e : TrackerErr)
deriving DecidableEq, Repr

/-- Embedding of Seq.IncRef (source): null maps to the sentinel, an IProxy
delegates to its IncRefnum (throwing when disposed, returning its refnum),
any other object is interned in the tracker. -/
def seqIncRef (o : Option MObj) (t : RefTracker) : Except IncRefErr (Int × RefTracker) :=
  match o with
  | none => .ok (NullRefNum, t)
  | some (.mproxyObj r d) => if d then .error .objectDisposed else .ok (r, t)
  | some (.mplain id) =>
    match t.inc (some id) with
    | .error e => .error (.trackerFault e)
    | .ok (r, t') => .ok (r, t')

/-- Embedding of Seq.ReportUnhandledException (source): enqueue on the
pending-exception queue, invoke the user hook when set, fail fast when the
switch is on. -/
def ReportUnhandledException (st : SeqState) (exId : Nat) (method : String) : SeqState :=
  let st1 := { st with pending := st.pending ++ [(exId, method)] }
  let st2 :=
    if st1.hookSet then { st1 with hookCalls := st1.hookCalls ++ [(exId, method)] }
    else st1
  if st2.failFast then { st2 with failFasted := true } else st2

/-- Embedding of nativeValueExpression (source): the wire form of a
managed return value.  The arms for a value of the wrong kind do not arise
from the generator, which emits type-correct code; they default to the
zero wire value. -/
def nativeValueExpression (t : Ty) (v : MVal) (st : SeqState) :
    Except IncRefErr (WireVal × SeqState) :=
  match t with
  | .basic .bool =>
    match v with
    | .vbool b => .ok (.wnum (if b then 1 else 0), st)
    | _ => .ok (.wnum 0, st)
  | .basic .string =>
    match v with
    | .vstr s =>
      let (ns, h') := StringToNString s st.heap
      .ok (.wstr ns, { st with heap := h' })
    | _ => .ok (.wstr ⟨0, 0⟩, st)
  | .slice _ =>
    match v with
    | .vbytes b =>
      let (nb, h') := BytesToNByteslice b st.heap
      .ok (.wbytes nb, { st with heap := h' })
    | _ => .ok (.wbytes ⟨0, 0⟩, st)
  | .ptr _ =>
    match v with
    | .vobj o =>
      match seqIncRef o st.tracker with
      | .error e => .error e
      | .ok (r, tr) => .ok (.wref r, { st with tracker := tr })
    | _ => .ok (.wref NullRefNum, st)
  | .named _ _ _ =>
    match v with
    | .vobj o =>
      match seqIncRef o st.tracker with
      | .error e => .error e
      | .ok (r, tr) => .ok (.wref r, { st with tracker := tr })
    | _ => .ok (.wref NullRefNum, st)
  | .errorTy =>
    match v with
    | .vobj o =>
      match seqIncRef o st.tracker with
      | .error e => .error e
      | .ok (r, tr) => .ok (.wref r, { st with tracker := tr })
    | _ => .ok (.wref NullRefNum, st)
  | _ =>
    match v with
    | .vnum n => .ok (.wnum n, st)
    | _ => .ok (.wnum 0, st)

/-- Embedding of defaultNativeReturn (source): the default wire value per
type, returned on the exception path of shapes without an error channel
and in the value slot of the error record. -/
def defaultNativeReturn : Ty → WireVal
  | .basic .bool => .wnum 0
  | .basic .string => .wstr ⟨0, 0⟩
  | .basic _ => .wnum 0
  | .slice _ => .wbytes ⟨0, 0⟩
  | .ptr _ => .wref NullRefNum
  | .named _ _ _ => .wref NullRefNum
  | .errorTy => .wref NullRefNum
  | .otherTy => .wnum 0

/-- The new GoError(ex) allocation of the catch blocks: a fresh plain
managed object. -/
def newGoError (st : SeqState) : MObj × SeqState :=
  (.mplain st.nextObj, { st with nextObj := st.nextObj + 1 })

inductive TrampRet where
  | rvoid
  | rsingle (w : WireVal)
  | rrecord (r0 : WireVal) (r1 : Int)
deriving DecidableEq, Repr

/-- Embedding of the trampoline bodies emitted by genInterface (source),
one arm per result shape, given the outcome of the try block around the
managed method invocation.  A tracker fault while marshaling surfaces as
an error here; it cannot occur without exhausting the 32-bit refnum space
and is not exercised by the generator's own code paths. -/
def runTrampoline (method : String) (shape : RetShape) (outcome : Except Nat MVal)
    (st : SeqState) : Except IncRefErr (TrampRet × SeqState) :=
  match shape, outcome with
  | .void, .ok _ => .ok (.rvoid, st)
  | .void, .error ex => .ok (.rvoid, ReportUnhandledException st ex method)
  | .errorOnly, .ok _ => .ok (.rsingle (.wref NullRefNum), st)
  | .errorOnly, .error _ =>
    let (obj, st1) := newGoError st
    match seqIncRef (some obj) st1.tracker with
    | .error e => .error e
    | .ok (r, tr) => .ok (.rsingle (.wref r), { st1 with tracker := tr })
  | .single t, .ok v =>
    match nativeValueExpression t v st with
    | .error e => .error e
    | .ok (w, st') => .ok (.rsingle w, st')
  | .single t, .error ex =>
    .ok (.rsingle (defaultNativeReturn t), ReportUnhandledException st ex method)
  | .valueAndError t, .ok v =>
    match nativeValueExpression t v st with
    | .error e => .error e
    | .ok (w, st') => .ok (.rrecord w NullRefNum, st')
  | .valueAndError t, .error _ =>
    let (obj, st1) := newGoError st
    match seqIncRef (some obj) st1.tracker with
    | .error e => .error e
    | .ok (r, tr) => .ok (.rrecord (defaultNativeReturn t) r, { st1 with tracker := tr })

lemma report_spec (st : SeqState) (ex : Nat) (m : String) :
    (ReportUnhandledException st ex m).pending = st.pending ++ [(ex, m)] ∧
    (ReportUnhandledException st ex m).hookCalls =
      (if st.hookSet then st.hookCalls ++ [(ex, m)] else st.hookCalls) ∧
    (ReportUnhandledException st ex m).failFasted = (st.failFasted || st.failFast) := by
  unfold ReportUnhandledException
  by_cases hh : st.hookSet <;> by_cases hf : st.failFast <;>
    simp [hh, hf]

lemma nativeValueExpression_pending {t : Ty} {v : MVal} {st : SeqState}
    {w : WireVal} {st' : SeqState} (h : nativeValueExpression t v st = .ok (w, st')) :
    st'.pending = st.pending := by
  cases t with
  | basic k =>
    cases k <;> cases v <;>
      simp only [nativeValueExpression] at h <;>
      (try (obtain ⟨h1, h2⟩ := Prod.mk.injEq .. ▸ (Except.ok.injEq .. ▸ h))) <;>
      first
        | (simp only [Except.ok.injEq, Prod.mk.injEq] at h
           rw [← h.2])
        | skip
  | slice e =>
    cases v <;> simp only [nativeValueExpression] at h <;>
      simp only [Except.ok.injEq, Prod.mk.injEq] at h <;> rw [← h.2]
  | ptr t2 =>
    cases v <;> simp only [nativeValueExpression] at h
    case vobj o =>
      cases hs : seqIncRef o st.tracker with
      | error e => rw [hs] at h; simp at h
      | ok p =>
        rw [hs] at h
        simp only [Except.ok.injEq, Prod.mk.injEq] at h
        rw [← h.2]
    all_goals
      simp only [Except.ok.injEq, Prod.mk.injEq] at h
      rw [← h.2]
  | named kind pk nm =>
    cases v <;> simp only [nativeValueExpression] at h
    case vobj o =>
      cases hs : seqIncRef o st.tracker with
      | error e => rw [hs] at h; simp at h
      | ok p =>
        rw [hs] at h
        simp only [Except.ok.injEq, Prod.mk.injEq] at h
        rw [← h.2]
    all_goals
      simp only [Except.ok.injEq, Prod.mk.injEq] at h
      rw [← h.2]
  | errorTy =>
    cases v <;> simp only [nativeValueExpression] at h
    case vobj o =>
      cases hs : seqIncRef o st.tracker with
      | error e => rw [hs] at h; simp at h
      | ok p =>
        rw [hs] at h
        simp only [Except.ok.injEq, Prod.mk.injEq] at h
        rw [← h.2]
    all_goals
      simp only [Except.ok.injEq, Prod.mk.injEq] at h
      rw [← h.2]
  | otherTy =>
    cases v <;> simp only [nativeValueExpression] at h <;>
      simp only [Except.ok.injEq, Prod.mk.injEq] at h <;> rw [← h.2]

/-- C6: callback trampoline exception translation.  For a method of shape
(T, error) the trampoline returns the record with the marshaled value and
the sentinel on success, and the record with the default wire value and a
freshly interned GoError refnum on exception (the queue untouched in both
cases); for (error) it returns the sentinel on success and a GoError
refnum on exception; for void and for (T) it returns the default wire
value on exception and reports it: enqueue on the pending queue, invoke
the user hook when set, fail fast when the switch is on. -/
theorem claim_C6_trampoline_exception_translation (method : String) (t : Ty)
    (v : MVal) (ex : Nat) (st : SeqState) :
    (∀ w st', nativeValueExpression t v st = .ok (w, st') →
        runTrampoline method (.valueAndError t) (.ok v) st =
          .ok (.rrecord w NullRefNum, st') ∧ st'.pending = st.pending) ∧
    (∀ r tr, seqIncRef (some (.mplain st.nextObj)) st.tracker = .ok (r, tr) →
        runTrampoline method (.valueAndError t) (.error ex) st =
          .ok (.rrecord (defaultNativeReturn t) r,
            { st with tracker := tr, nextObj := st.nextObj + 1 })) ∧
    (runTrampoline method .errorOnly (.ok v) st =
        .ok (.rsingle (.wref NullRefNum), st)) ∧
    (∀ r tr, seqIncRef (some (.mplain st.nextObj)) st.tracker = .ok (r, tr) →
        runTrampoline method .errorOnly (.error ex) st =
          .ok (.rsingle (.wref r),
            { st with tracker := tr, nextObj := st.nextObj + 1 })) ∧
    (runTrampoline method .void (.ok v) st = .ok (.rvoid, st)) ∧
    (runTrampoline method .void (.error ex) st =
        .ok (.rvoid, ReportUnhandledException st ex method) ∧
      (ReportUnhandledException st ex method).pending = st.pending ++ [(ex, method)] ∧
      (ReportUnhandledException st ex method).hookCalls =
        (if st.hookSet then st.hookCalls ++ [(ex, method)] else st.hookCalls) ∧
      (ReportUnhandledException st ex method).failFasted =
        (st.failFasted || st.failFast)) ∧
    (∀ w st', nativeValueExpression t v st = .ok (w, st') →
        runTrampoline method (.single t) (.ok v) st = .ok (.rsingle w, st')) ∧
    (runTrampoline method (.single t) (.error ex) st =
        .ok (.rsingle (defaultNativeReturn t), ReportUnhandledException st ex method)) := by
  refine ⟨?_, ?_, rfl, ?_, rfl, ⟨rfl, report_spec st ex method⟩, ?_, rfl⟩
  · intro w st' hm
    constructor
    · simp only [runTrampoline, hm]
    · exact nativeValueExpression_pending hm
  · intro r tr hs
    simp only [runTrampoline, newGoError]
    rw [hs]
  · intro r tr hs
    simp only [runTrampoline, newGoError]
    rw [hs]
  · intro w st' hm
    simp only [runTrampoline, hm]

/-- C6 witness: the theorem applied at the concrete method Push of shape
(int32, error) with value 5, at the exception identifier 3 on the initial
runtime state: success yields the record with wire value 5 and the
sentinel; exception yields the record with the default wire value and the
freshly interned GoError refnum 42; the void shape reports the exception
to the pending queue. -/
theorem claim_C6_witness :
    runTrampoline "Push" (.valueAndError (Ty.basic .int32)) (.ok (.vnum 5)) seqInitial =
      .ok (.rrecord (.wnum 5) NullRefNum, seqInitial) ∧
    runTrampoline "Push" (.valueAndError (Ty.basic .int32)) (.error 3) seqInitial =
      .ok (.rrecord (defaultNativeReturn (Ty.basic .int32)) 42,
        { seqInitial with tracker := ⟨43, [(42, ⟨0, 1⟩)], [(0, 42)]⟩, nextObj := 1 }) ∧
    runTrampoline "Push" .void (.error 3) seqInitial =
      .ok (.rvoid, ReportUnhandledException seqInitial 3 "Push") ∧
    (ReportUnhandledException seqInitial 3 "Push").pending = [(3, "Push")] := by
  have h := claim_C6_trampoline_exception_translation "Push" (Ty.basic .int32)
    (.vnum 5) 3 seqInitial
  refine ⟨(h.1 (.wnum 5) seqInitial rfl).1, ?_, ?_, ?_⟩
  · exact h.2.1 42 ⟨43, [(42, ⟨0, 1⟩)], [(0, 42)]⟩ rfl
  · exact h.2.2.2.2.2.1.1
  · simpa using h.2.2.2.2.2.1.2.1

end GomobileCS
